import Mathlib

/-!
# Sniffmail email validation library — verification development

Shallow embedding of the sniffmail validation pipeline:
* the string / normalization model (JS `toLowerCase().trim()`, the syntax regex,
  `split`),
* the data model (`ValidationResult`, `ReacherResponse`, cache entries),
* the pure result builders (`createResult`, `transformReacherResponse`,
  `mapReacherStatusToReason`),
* the blocklist membership tests (`isInGitHubBlocklist`, `isInScrapedBlocklist`,
  `isDiscoveredDomain`, `isDisposableDomain`),
* the status-aware result cache (`MemoryCache`, `getFromCache`, `setInCache`),
* the orchestrator `validateEmail` (oracle calls modelled as functions living in
  a `World`; thrown JS exceptions modelled with `Except`; the call trace is
  produced explicitly so that "collaborator X was never invoked" is a statement
  about the embedding),
* the batch executor `validateEmails` (completion order of the bounded worker
  pool modelled as an explicit schedule parameter).

Machine integers do not overflow in the modelled code paths (timestamps and TTLs
are ordinary numbers well inside the double-precision safe range), so they are
modelled as `Int`.
-/

/-! ## JS string primitives

JS strings are modelled through their character lists.  `toLowerCase` is
modelled on the ASCII range (the only range exercised by the code's own data:
domains and the regex character classes), `trim`/`\s` on the common whitespace
characters. -/

/-- JS whitespace test (the `\s` class / `trim` set), restricted to the ASCII
whitespace characters. -/
def isWsp (c : Char) : Bool :=
  c = ' ' || c = '\t' || c = '\n' || c = '\r' || c = '\x0b' || c = '\x0c'

/-- One character of JS `toLowerCase` (ASCII range). -/
def jsLowerChar (c : Char) : Char :=
  if 65 ≤ c.toNat ∧ c.toNat ≤ 90 then Char.ofNat (c.toNat + 32) else c

/-- JS `String.prototype.toLowerCase` (ASCII range). -/
def jsToLower (s : String) : String :=
  String.mk (s.data.map jsLowerChar)

/-- JS `String.prototype.trim`: strip leading and trailing whitespace. -/
def jsTrim (s : String) : String :=
  String.mk (((s.data.dropWhile isWsp).reverse.dropWhile isWsp).reverse)

/-- `email.toLowerCase().trim()` — the normalization performed by
`validateEmail` (src/validator.ts line 77) and by `getCacheKey`. -/
def jsNormalize (s : String) : String :=
  jsTrim (jsToLower s)

/-- JS `String.prototype.split` with a one-character separator: `List.splitOn`
on the character list (both keep empty pieces and always return at least one
piece). -/
def jsSplit (sep : Char) (cs : List Char) : List (List Char) :=
  cs.splitOn sep

/-- JS `Array.prototype.join('.')` on label lists. -/
def joinDots (gs : List (List Char)) : List Char :=
  List.intercalate ['.'] gs

/-- The test of `EMAIL_REGEX = /^[^\s@]+@[^\s@]+\.[^\s@]+$/`
(src/validator.ts line 55).  A string matches iff it splits at a single `@`
into a nonempty whitespace-free local part and a whitespace-free rest that
contains a `.` at neither its first nor its last position. -/
def emailRegexTest (cs : List Char) : Bool :=
  match jsSplit '@' cs with
  | [l, r] =>
    !l.isEmpty && l.all (fun c => !isWsp c) && r.all (fun c => !isWsp c) &&
      ((r.drop 1).dropLast.contains '.')
  | _ => false

/-! ## Data model (src/types.ts, src/reacher/types.ts) -/

/-- `ReachableStatus` / `ReacherReachableStatus`. -/
inductive ReachableStatus
  | safe
  | risky
  | invalid
  | unknown
  deriving DecidableEq, Repr

/-- `ValidationReason` without its `null` member; absence (`null`) is
`Option.none` in the embedding.  `invalidSyntax` models the source's
`'invalid_syntax'` value. -/
inductive ValidationReason
  | invalidSyntax
  | disposable
  | no_mx_records
  | mailbox_not_found
  | mailbox_full
  | mailbox_disabled
  | catch_all
  | smtp_error
  deriving DecidableEq, Repr

/-- `SmtpResult` (src/types.ts). -/
structure SmtpResult where
  is_reachable : ReachableStatus
  can_connect : Bool
  is_deliverable : Bool
  is_catch_all : Bool
  deriving DecidableEq, Repr

/-- `ValidationResult` (src/types.ts). -/
structure ValidationResult where
  email : String
  valid : Bool
  reason : Option ValidationReason
  disposable : Bool
  mx : Bool
  smtp : Option SmtpResult
  cached : Bool
  deriving DecidableEq, Repr

/-- `ReacherSyntax` (src/reacher/types.ts). -/
structure ReacherSyntax where
  address : String
  domain : String
  is_valid_syntax : Bool
  username : String
  deriving DecidableEq, Repr

/-- `ReacherMxRecord` (src/reacher/types.ts). -/
structure ReacherMxRecord where
  exchange : String
  priority : Nat
  deriving DecidableEq, Repr

/-- `ReacherMx` (src/reacher/types.ts). -/
structure ReacherMx where
  accepts_mail : Bool
  records : List ReacherMxRecord
  deriving DecidableEq, Repr

/-- `ReacherSmtp` (src/reacher/types.ts). -/
structure ReacherSmtp where
  can_connect_smtp : Bool
  has_full_inbox : Bool
  is_catch_all : Bool
  is_deliverable : Bool
  is_disabled : Bool
  deriving DecidableEq, Repr

/-- `ReacherMisc` (src/reacher/types.ts). -/
structure ReacherMisc where
  is_disposable : Bool
  is_role_account : Bool
  gravatar_url : Option String
  deriving DecidableEq, Repr

/-- `ReacherResponse` (src/reacher/types.ts). -/
structure ReacherResponse where
  input : String
  is_reachable : ReachableStatus
  syntax_field : ReacherSyntax
  mx : ReacherMx
  smtp : ReacherSmtp
  misc : ReacherMisc
  deriving DecidableEq, Repr

/-- `ValidationOptions` (src/types.ts); `none` models an omitted field, the
defaults (`deep=false`, `checkMx=true`, `useDeBounce=true`, `timeout=5`) are
applied inside `validateEmail` as in the source. -/
structure ValidationOptions where
  deep : Option Bool := none
  checkMx : Option Bool := none
  useDeBounce : Option Bool := none
  timeout : Option Nat := none
  deriving DecidableEq, Repr

/-! ## Pure result builders (src/validator.ts) -/

/-- `createResult` (src/validator.ts lines 235-255).  `smtp` defaults to
`null`, `cached` to `false` via `??`. -/
def createResult (email : String) (valid : Bool) (reason : Option ValidationReason)
    (disposable : Bool) (mx : Bool) (smtp : Option SmtpResult) (cached : Option Bool) :
    ValidationResult :=
  { email := email
    valid := valid
    reason := reason
    disposable := disposable
    mx := mx
    smtp := smtp
    cached := cached.getD false }

/-- `mapReacherStatusToReason` (src/validator.ts lines 282-312): the cascade of
conditionals mapping a Reacher response to a reason. -/
def mapReacherStatusToReason (response : ReacherResponse) : Option ValidationReason :=
  if response.misc.is_disposable then some .disposable
  else if !response.mx.accepts_mail then some .no_mx_records
  else if !response.smtp.can_connect_smtp then some .smtp_error
  else if response.smtp.has_full_inbox then some .mailbox_full
  else if response.smtp.is_disabled then some .mailbox_disabled
  else if response.smtp.is_catch_all then some .catch_all
  else if !response.smtp.is_deliverable then some .mailbox_not_found
  else none

/-- `transformReacherResponse` (src/validator.ts lines 257-280). -/
def transformReacherResponse (email : String) (response : ReacherResponse) :
    ValidationResult :=
  let isReachable := response.is_reachable
  let isValid : Bool := isReachable = .safe
  let reason : Option ValidationReason :=
    if !isValid then mapReacherStatusToReason response else none
  { email := email
    valid := isValid
    reason := reason
    disposable := response.misc.is_disposable
    mx := response.mx.accepts_mail
    smtp := some
      { is_reachable := isReachable
        can_connect := response.smtp.can_connect_smtp
        is_deliverable := response.smtp.is_deliverable
        is_catch_all := response.smtp.is_catch_all }
    cached := false }

/-! ## Blocklist sources (src/sources/)

The module-level in-memory snapshots (the fetched GitHub set, the scraped set,
the discovered set) are passed in as explicit `Blocklists` state; the hardcoded
fallback sets are embedded literally.  The background staleness refresh is
fire-and-forget in the source (it never changes the value returned by the
current call), so it does not appear in the membership functions. -/

/-- `IMMEDIATE_BLOCKLIST` (src/sources/github-blocklist.ts): the hardcoded
always-available subset of the remote blocklist. -/
def IMMEDIATE_BLOCKLIST : List String :=
  ["tempmail.com", "temp-mail.org", "guerrillamail.com", "guerrillamail.org",
   "mailinator.com", "yopmail.com", "10minutemail.com", "throwaway.email",
   "fakeinbox.com", "trashmail.com", "sharklasers.com", "spam4.me",
   "dispostable.com", "maildrop.cc", "getnada.com", "tempail.com",
   "mohmal.com", "minutemailbox.com", "emailondeck.com", "tempr.email",
   "temp-mail.io", "fakemailgenerator.com", "throwawaymail.com",
   "mailnesia.com", "tempmailaddress.com", "burnermail.io", "tempinbox.com",
   "dropmail.me", "mytemp.email", "mailcatch.com", "jetable.org",
   "getairmail.com", "crazymailing.com", "wegwerfmail.de", "moakt.com",
   "tempmailo.com", "emailfake.com", "fakemail.net", "inboxalias.com"]

/-- `FALLBACK_TEMP_MAIL_DOMAINS` (src/sources/scraped-domains.ts): the static
fallback list behind the scraped-provider feed. -/
def FALLBACK_TEMP_MAIL_DOMAINS : List String :=
  ["akixpres.com", "eubonus.com", "feanzier.com", "atinjo.com", "ixospace.com",
   "imfaya.com", "jparksky.com", "gopicta.com", "markuto.com", "emaxasp.com",
   "icousd.com", "24faw.com", "gavrom.com", "cucadas.com", "hudisk.com",
   "cameltok.com", "dubokutv.com", "fftube.com", "roratu.com", "arugy.com",
   "nctime.com", "mucate.com", "mekuron.com", "m3player.com", "gamintor.com",
   "tvtmall.com", "sofreak.com", "senione.com", "sanszero.com", "sesedm.com",
   "tazines.com", "alexida.com", "naqulu.com", "discounp.com", "lawior.com",
   "crsay.com", "kudimi.com", "roastic.com", "asurad.com", "zaxcal.com",
   "besaies.com", "skateru.com", "vipsalut.com", "tieal.com", "xanwich.com",
   "ncien.com", "inupup.com", "safetoca.com", "mirarmax.com", "cspaus.com",
   "certve.com", "pouxing.com", "dextrago.com", "paovod.com", "salexup.com",
   "knilok.com", "solca1.com", "dpwev.com", "taketik.com", "vidwobox.com",
   "ishense.com", "merumart.com", "wmxgroup.com", "poesd.com", "fanwn.com",
   "kwifa.com", "ekuali.com", "upmusk.com", "reifide.com", "obirah.com",
   "tosvot.com", "vnziu.com", "walakato.com", "taynit.com", "harkonin.com",
   "cerisun.com", "cnguopin.com", "dotxan.com", "bitfami.com", "mangatoo.com",
   "frestle.com", "artvara.com", "exiond.com", "anysilo.com", "camjoint.com",
   "dawhe.com", "jshiba.com", "nariapp.com", "avastu.com", "exoular.com",
   "doulas.org", "cindalle.com", "nestvia.com", "kenfern.com", "jontra.com",
   "seondes.com", "adrais.com", "ecstor.com", "lero3.com", "comsb.com",
   "dni8.com", "moranfx.com", "ndiety.com", "sablecc.com", "phamay.com",
   "avtolev.com", "w3heroes.com", "beltng.com", "miwacle.com", "ingitel.com",
   "yyxxi.com"]

/-- The in-memory module-level blocklist snapshots. -/
structure Blocklists where
  /-- `discoveredDomains` (src/sources/discovered-domains.ts). -/
  discovered : List String
  /-- `scrapedDomains` (src/sources/scraped-domains.ts). -/
  scraped : List String
  /-- `githubBlocklist` (src/sources/github-blocklist.ts), the fetched set. -/
  github : List String

/-- `isDiscoveredDomain` (src/sources/discovered-domains.ts): exact membership
of the lowercased domain. -/
def isDiscoveredDomain (bl : Blocklists) (domain : String) : Bool :=
  bl.discovered.contains (jsToLower domain)

/-- `isInScrapedBlocklist` (src/sources/scraped-domains.ts): exact membership
in the scraped set or the static fallback set. -/
def isInScrapedBlocklist (bl : Blocklists) (domain : String) : Bool :=
  let normalizedDomain := jsToLower domain
  bl.scraped.contains normalizedDomain ||
    FALLBACK_TEMP_MAIL_DOMAINS.contains normalizedDomain

/-- The suffix loop of `isInGitHubBlocklist`
(`for (let i = 1; i < parts.length - 1; i++)`): test the domain obtained by
dropping the first `i` labels, for `i = 1 .. parts.length - 2`. -/
def githubSuffixHit (bl : Blocklists) (parts : List (List Char)) : Bool :=
  (List.range' 1 (parts.length - 2)).any fun i =>
    let parentDomain := String.mk (joinDots (parts.drop i))
    IMMEDIATE_BLOCKLIST.contains parentDomain || bl.github.contains parentDomain

/-- `isInGitHubBlocklist` (src/sources/github-blocklist.ts): exact membership
of the lowercased domain in the immediate or fetched set, then the
ancestor-domain (suffix) loop. -/
def isInGitHubBlocklist (bl : Blocklists) (domain : String) : Bool :=
  let normalizedDomain := jsToLower domain
  if IMMEDIATE_BLOCKLIST.contains normalizedDomain then true
  else if bl.github.contains normalizedDomain then true
  else githubSuffixHit bl (jsSplit '.' normalizedDomain.data)

/-- `isDisposableDomain` (src/validator.ts lines 207-214). -/
def isDisposableDomain (bl : Blocklists) (domain : String) : Bool :=
  let normalizedDomain := jsToLower domain
  isDiscoveredDomain bl normalizedDomain ||
    isInScrapedBlocklist bl normalizedDomain ||
    isInGitHubBlocklist bl normalizedDomain

/-! ## Result cache (src/cache/index.ts, src/cache/memory.ts)

Serialization (`JSON.stringify` / `JSON.parse`) of a `ValidationResult` is a
round trip, so cached values are modelled as `ValidationResult` directly.
`MemoryCache`'s store is an association list with unique keys; `now` is the
current `Date.now()` timestamp in milliseconds. -/

/-- One entry of `MemoryCache.store` (src/cache/memory.ts). -/
structure CacheEntry where
  key : String
  value : ValidationResult
  expires : Int
  deriving DecidableEq, Repr

/-- `CACHE_PREFIX = 'sniffmail:'` (src/cache/index.ts). -/
def cacheKeyPrefixStr : String := "sniffmail:"

/-- `getCacheKey` (src/cache/index.ts): prefix plus the lowercased trimmed
email. -/
def getCacheKey (email : String) : String :=
  cacheKeyPrefixStr ++ jsNormalize email

/-- `MemoryCache.get` (src/cache/memory.ts lines 11-23): lazy expiry on read —
an entry past its expiry is deleted and reported as a miss. -/
def memoryCacheGet (store : List CacheEntry) (now : Int) (key : String) :
    Option ValidationResult × List CacheEntry :=
  match store.find? (fun e => e.key == key) with
  | none => (none, store)
  | some e =>
    if now > e.expires then (none, store.filter (fun x => x.key ≠ key))
    else (some e.value, store)

/-- `MemoryCache.set` (src/cache/memory.ts lines 25-34): a no-op when
`ttlSeconds ≤ 0`, otherwise store the value with `expires = now + ttl * 1000`. -/
def memoryCacheSet (store : List CacheEntry) (now : Int) (key : String)
    (value : ValidationResult) (ttlSeconds : Int) : List CacheEntry :=
  if ttlSeconds ≤ 0 then store
  else ⟨key, value, now + ttlSeconds * 1000⟩ :: store.filter (fun x => x.key ≠ key)

/-- `getFromCache` (src/cache/index.ts): read through `getCacheKey`. -/
def getFromCache (store : List CacheEntry) (now : Int) (email : String) :
    Option ValidationResult × List CacheEntry :=
  memoryCacheGet store now (getCacheKey email)

/-- `setInCache` (src/cache/index.ts lines 34-44): early return when
`ttlSeconds ≤ 0`, otherwise write through `getCacheKey`. -/
def setInCache (store : List CacheEntry) (now : Int) (email : String)
    (value : ValidationResult) (ttlSeconds : Int) : List CacheEntry :=
  if ttlSeconds ≤ 0 then store
  else memoryCacheSet store now (getCacheKey email) value ttlSeconds

/-- `DEFAULT_TTL` (src/config.ts): TTL seconds per reachability class. -/
def DEFAULT_TTL : ReachableStatus → Int
  | .safe => 604800
  | .invalid => 2592000
  | .risky => 86400
  | .unknown => 0

/-! ## Orchestrator (src/validator.ts `validateEmail`)

The external collaborators (node-email-verifier, the DeBounce API, the Reacher
backend) are deterministic oracles living in a `World`; an `Except Unit`
result models a thrown JS exception / rejected promise.  The `World` also
carries the cache configuration and the `MemoryCache` store, and a fixed
`Date.now()` timestamp (the modelled calls are "immediate": they all happen at
the same clock reading).  Every collaborator invocation is recorded in an
event trace, in invocation order. -/

/-- `DetailedValidationResult` (src/validator.ts lines 47-53): the shape
returned by node-email-verifier in detailed mode.  `mx_valid` / `dispo_valid`
are `none` when the corresponding optional sub-object is absent, otherwise the
sub-object's `valid` flag. -/
structure DetailedValidationResult where
  valid : Bool
  email : String
  format_valid : Bool
  mx_valid : Option Bool
  dispo_valid : Option Bool
  deriving DecidableEq, Repr

/-- The exceptions distinguished at the `validateEmail` boundary:
`ReacherNotConfiguredError` (rethrown) versus everything else (fail-open). -/
inductive JsError
  | notConfigured
  | oracleError
  deriving DecidableEq, Repr

/-- One recorded collaborator invocation. -/
inductive Ev
  | nodeCall (email : String)
  | debounceCall (email : String)
  | cacheGet (key : String)
  | cacheSet (key : String)
  | reacherCall (email : String)
  deriving DecidableEq, Repr

/-- The state and collaborators of one validation run. -/
structure World where
  /-- Blocklist snapshots. -/
  lists : Blocklists
  /-- The node-email-verifier call (`emailValidator(...)`, src/validator.ts
  line 103); `Except.error` models a thrown error / timeout. -/
  nodeOracle : String → Except Unit DetailedValidationResult
  /-- The raw DeBounce fetch inside `checkDeBounceAPI`
  (src/sources/debounce-api.ts); `Except.error` models a fetch error or
  timeout. -/
  debounceOracle : String → Except Unit Bool
  /-- Whether a Reacher backend URL is configured (src/reacher/client.ts). -/
  reacherConfigured : Bool
  /-- The Reacher backend call; `Except.error` models a `ReacherError`
  (non-2xx, network failure, timeout). -/
  reacherOracle : String → Except Unit ReacherResponse
  /-- `isCacheEnabled()` (src/config.ts). -/
  cacheEnabled : Bool
  /-- `getCacheTtl(status)` (src/config.ts): the configured TTL seconds per
  reachability class (defaults `DEFAULT_TTL`). -/
  ttl : ReachableStatus → Int
  /-- The `MemoryCache` store. -/
  store : List CacheEntry
  /-- `Date.now()` in milliseconds. -/
  now : Int

/-- `checkDeBounceAPI` (src/sources/debounce-api.ts): returns the oracle's
verdict, failing open (`false`) on any error. -/
def checkDeBounceAPI (w : World) (email : String) : Bool :=
  match w.debounceOracle email with
  | .error _ => false
  | .ok b => b

/-- `checkMailbox` (src/reacher/client.ts lines 27-82): throws
`ReacherNotConfiguredError` when no backend URL is configured, wraps every
other failure in a `ReacherError`. -/
def checkMailbox (w : World) (email : String) : Except JsError ReacherResponse :=
  if w.reacherConfigured then
    match w.reacherOracle email with
    | .ok r => .ok r
    | .error _ => .error .oracleError
  else .error .notConfigured

/-- Steps 1-4 of `validateEmail` (src/validator.ts lines 80-163): syntax
check, local blocklists, node-email-verifier, DeBounce, shallow exit.
Takes the already-normalized email.  Returns `some r` for a shallow return,
`none` to proceed to the deep phase; `Except.error` is an exception
propagating to the boundary `catch`. -/
def runShallow (w : World) (nEmail : String) (checkMx useDeBounce deep : Bool) :
    Except Unit (Option ValidationResult) × List Ev :=
  if emailRegexTest nEmail.data = false then
    (.ok (some (createResult nEmail false (some .invalidSyntax) false false none none)), [])
  else
    let domain := String.mk ((jsSplit '@' nEmail.data).getD 1 [])
    if isDisposableDomain w.lists domain then
      (.ok (some (createResult nEmail false (some .disposable) true false none none)), [])
    else
      match w.nodeOracle nEmail with
      | .error _ => (.error (), [.nodeCall nEmail])
      | .ok nodeResult =>
        if nodeResult.format_valid = false then
          (.ok (some (createResult nEmail false (some .invalidSyntax) false false none none)),
           [.nodeCall nEmail])
        else if (match nodeResult.dispo_valid with | some v => !v | none => false) then
          (.ok (some (createResult nEmail false (some .disposable) true
              (nodeResult.mx_valid.getD false) none none)),
           [.nodeCall nEmail])
        else if checkMx &&
            (match nodeResult.mx_valid with | some v => !v | none => false) then
          (.ok (some (createResult nEmail false (some .no_mx_records) false false none none)),
           [.nodeCall nEmail])
        else if useDeBounce && checkDeBounceAPI w nEmail then
          (.ok (some (createResult nEmail false (some .disposable) true true none none)),
           [.nodeCall nEmail, .debounceCall nEmail])
        else
          let tr : List Ev :=
            if useDeBounce then [.nodeCall nEmail, .debounceCall nEmail]
            else [.nodeCall nEmail]
          if deep = false then
            (.ok (some (createResult nEmail true none false true none none)), tr)
          else (.ok none, tr)

/-- Step 5 + cache write of `validateEmail` (src/validator.ts lines 174-186):
the Reacher call, result transformation, and the TTL-gated cache write. -/
def runReacherStep (w : World) (st : List CacheEntry) (nEmail : String) (tr : List Ev) :
    Except JsError ValidationResult × List CacheEntry × List Ev :=
  match checkMailbox w nEmail with
  | .error e => (.error e, st, tr ++ [.reacherCall nEmail])
  | .ok response =>
    let result := transformReacherResponse nEmail response
    if w.cacheEnabled && decide (0 < w.ttl response.is_reachable) then
      (.ok result, setInCache st w.now nEmail result (w.ttl response.is_reachable),
       tr ++ [.reacherCall nEmail, .cacheSet (getCacheKey nEmail)])
    else
      (.ok result, st, tr ++ [.reacherCall nEmail])

/-- Steps 4-5 of `validateEmail` in deep mode (src/validator.ts lines
165-186): cache lookup (when enabled), then the Reacher call. -/
def runDeep (w : World) (nEmail : String) :
    Except JsError ValidationResult × List CacheEntry × List Ev :=
  if w.cacheEnabled then
    match getFromCache w.store w.now nEmail with
    | (some cachedResult, st1) =>
      (.ok { cachedResult with cached := true }, st1, [.cacheGet (getCacheKey nEmail)])
    | (none, st1) =>
      runReacherStep w st1 nEmail [.cacheGet (getCacheKey nEmail)]
  else
    runReacherStep w w.store nEmail []

/-- The fail-open result built in the boundary `catch`
(src/validator.ts lines 195-200). -/
def failOpenResult (nEmail : String) : ValidationResult :=
  createResult nEmail true none false true none none

/-- `validateEmail` (src/validator.ts lines 72-202).  Returns the result (or
the rethrown `ReacherNotConfiguredError`), the final world, and the
collaborator trace.  The boundary `catch` converts every exception except
`ReacherNotConfiguredError` into `failOpenResult`. -/
def validateEmail (w : World) (email : String) (opts : ValidationOptions) :
    Except JsError ValidationResult × World × List Ev :=
  let deep := opts.deep.getD false
  let cMx := opts.checkMx.getD true
  let uDB := opts.useDeBounce.getD true
  let normalizedEmail := jsNormalize email
  match runShallow w normalizedEmail cMx uDB deep with
  | (.error _, tr) => (.ok (failOpenResult normalizedEmail), w, tr)
  | (.ok (some r), tr) => (.ok r, w, tr)
  | (.ok none, tr) =>
    match runDeep w normalizedEmail with
    | (.error .notConfigured, st, trd) =>
      (.error .notConfigured, { w with store := st }, tr ++ trd)
    | (.error .oracleError, st, trd) =>
      (.ok (failOpenResult normalizedEmail), { w with store := st }, tr ++ trd)
    | (.ok r, st, trd) => (.ok r, { w with store := st }, tr ++ trd)

/-! ## Batch executor (src/batch.ts)

`validateEmails` maps `validateEmail` over the input array under a `p-limit`
worker pool and collects the results with `Promise.all`, which places each
task's value at the task's own index regardless of completion order.  The pool
is modelled by an explicit `schedule`: the order in which the pending
invocations run to completion (any bounded concurrency limit yields such an
order).  A rejected invocation rejects the whole batch, as `Promise.all`
does. -/

/-- Run the scheduled invocations in order, threading the shared world and
recording each result against its input index. -/
def runScheduled (emails : List String) (opts : ValidationOptions) :
    List Nat → World → List (Nat × ValidationResult) →
    Except JsError (List (Nat × ValidationResult) × World)
  | [], w, acc => .ok (acc, w)
  | i :: rest, w, acc =>
    match validateEmail w (emails.getD i "") opts with
    | (.error e, _, _) => .error e
    | (.ok r, w', _) => runScheduled emails opts rest w' (acc ++ [(i, r)])

/-- `validateEmails` (src/batch.ts lines 27-44), results list only: the
`Promise.all` array, slot `i` holding the result of `emails[i]`. -/
def validateEmails (emails : List String) (opts : ValidationOptions)
    (w : World) (schedule : List Nat) :
    Except JsError (List (Option ValidationResult)) :=
  match runScheduled emails opts schedule w [] with
  | .error e => .error e
  | .ok (acc, _) => .ok ((List.range emails.length).map (fun i => acc.lookup i))

/-- `calculateSummary` (src/batch.ts lines 46-58). -/
def calculateSummary (results : List ValidationResult) : Nat × Nat × Nat × Nat × Nat :=
  (results.length,
   (results.filter (fun r => r.valid)).length,
   (results.filter (fun r => !r.valid && r.reason ≠ some .disposable)).length,
   (results.filter (fun r => r.disposable)).length,
   (results.filter (fun r =>
     match r.smtp with
     | some s => s.is_reachable = .unknown
     | none => false)).length)

/-! ## Spec-side definitions and invariants

`reasonPrecedenceSpec` is written from the specification's words ("an explicit
precedence-ordered mapping table, first true wins") to be compared with the
source's `mapReacherStatusToReason` cascade. -/

/-- The spec's precedence-ordered (flag, reason) table for a deep-oracle
response: disposable > rejects-mail > cannot-connect > full-inbox > disabled >
catch-all > not-deliverable. -/
def reasonPrecedenceTable (r : ReacherResponse) : List (Bool × ValidationReason) :=
  [(r.misc.is_disposable, .disposable),
   (!r.mx.accepts_mail, .no_mx_records),
   (!r.smtp.can_connect_smtp, .smtp_error),
   (r.smtp.has_full_inbox, .mailbox_full),
   (r.smtp.is_disabled, .mailbox_disabled),
   (r.smtp.is_catch_all, .catch_all),
   (!r.smtp.is_deliverable, .mailbox_not_found)]

/-- First true entry of the precedence table wins; no entry means no reason. -/
def reasonPrecedenceSpec (r : ReacherResponse) : Option ValidationReason :=
  ((reasonPrecedenceTable r).find? (fun p => p.1)).map (fun p => p.2)

/-- The reason/valid relationship actually maintained by the code: a valid
result never carries a reason, and for results without an smtp sub-structure
(not built from a deep-oracle response) the absence of a reason coincides with
validity. -/
def ReasonValidInv (r : ValidationResult) : Prop :=
  (r.valid = true → r.reason = none) ∧
    (r.smtp = none → (r.reason = none ↔ r.valid = true))

/-- Cache well-formedness: every entry sits under the key derived from its own
(normalized) email — the shape of every write the orchestrator performs. -/
def StoreWF (store : List CacheEntry) : Prop :=
  ∀ en ∈ store, en.key = cacheKeyPrefixStr ++ en.value.email

/-- Cache reason/valid well-formedness: every cached value satisfies
`ReasonValidInv` — the shape of every write the orchestrator performs. -/
def StoreInv (store : List CacheEntry) : Prop :=
  ∀ en ∈ store, ReasonValidInv en.value

/-! ## Concrete worlds and responses used by witnesses and counterexamples -/

/-- A deep-oracle response with reachability `risky` and no precedence flag
set (a typical role-account response: connectable, deliverable, not catch-all,
not disposable). -/
def riskyNoFlagResponse : ReacherResponse :=
  { input := "info@example.com"
    is_reachable := .risky
    syntax_field := ⟨"info@example.com", "example.com", true, "info"⟩
    mx := ⟨true, []⟩
    smtp := ⟨true, false, false, true, false⟩
    misc := ⟨false, true, none⟩ }

/-- A deep-oracle response with reachability `safe`. -/
def safeResponse : ReacherResponse :=
  { input := "a@example.com"
    is_reachable := .safe
    syntax_field := ⟨"a@example.com", "example.com", true, "a"⟩
    mx := ⟨true, []⟩
    smtp := ⟨true, false, false, true, false⟩
    misc := ⟨false, false, none⟩ }

/-- A deep-oracle response with reachability `unknown`. -/
def unknownResponse : ReacherResponse :=
  { input := "a@example.com"
    is_reachable := .unknown
    syntax_field := ⟨"a@example.com", "example.com", true, "a"⟩
    mx := ⟨true, []⟩
    smtp := ⟨false, false, false, false, false⟩
    misc := ⟨false, false, none⟩ }

/-- A node-email-verifier response that passes every shallow check. -/
def nodeOkResult (e : String) : DetailedValidationResult :=
  { valid := true, email := e, format_valid := true
    mx_valid := some true, dispo_valid := some true }

/-- A benign base world: empty blocklists, all oracles succeed, Reacher
configured and answering `riskyNoFlagResponse`, caching enabled with the
default TTLs, an empty store. -/
def wBase : World :=
  { lists := ⟨[], [], []⟩
    nodeOracle := fun e => .ok (nodeOkResult e)
    debounceOracle := fun _ => .ok false
    reacherConfigured := true
    reacherOracle := fun _ => .ok riskyNoFlagResponse
    cacheEnabled := true
    ttl := DEFAULT_TTL
    store := []
    now := 1700000000000 }

/-- `wBase` with no Reacher backend configured. -/
def wUnconfigured : World :=
  { wBase with reacherConfigured := false }

/-- `wBase` whose node-email-verifier call throws. -/
def wNodeErr : World :=
  { wBase with nodeOracle := fun _ => .error () }

/-- `wBase` whose Reacher call fails with a `ReacherError`. -/
def wReacherErr : World :=
  { wBase with reacherOracle := fun _ => .error () }

/-- `wBase` whose Reacher call answers `safeResponse`. -/
def wSafe : World :=
  { wBase with reacherOracle := fun _ => .ok safeResponse }

/-- `wBase` whose Reacher call answers `unknownResponse`. -/
def wUnknown : World :=
  { wBase with reacherOracle := fun _ => .ok unknownResponse }

/-- The deep-mode options used by witnesses. -/
def deepOpts : ValidationOptions :=
  { deep := some true }

/-- A stored deep result used by cache-hit witnesses. -/
def cachedValueEx : ValidationResult :=
  { email := "a@b.co", valid := true, reason := none, disposable := false,
    mx := true, smtp := some ⟨.safe, true, true, false⟩, cached := false }

/-- `wBase` with `cachedValueEx` stored (unexpired) under the key of
`a@b.co`. -/
def wHit : World :=
  { wBase with store := [⟨getCacheKey "a@b.co", cachedValueEx, wBase.now + 1000⟩] }

/-! ## Helper lemmas: characters and strings -/

theorem char_eq_iff_toNat (c d : Char) : c = d ↔ c.toNat = d.toNat := by
  constructor
  · intro h
    rw [h]
  · intro h
    exact Char.eq_of_val_eq (UInt32.toNat.inj h)

theorem char_ofNat_toNat_range : ∀ k, k < 123 → 97 ≤ k → (Char.ofNat k).toNat = k := by
  decide

theorem isWsp_eq_true_iff (c : Char) :
    isWsp c = true ↔ (c.toNat = 32 ∨ c.toNat = 9 ∨ c.toNat = 10 ∨ c.toNat = 13 ∨
      c.toNat = 11 ∨ c.toNat = 12) := by
  unfold isWsp
  simp only [Bool.or_eq_true, decide_eq_true_eq]
  rw [char_eq_iff_toNat c ' ', char_eq_iff_toNat c '\t', char_eq_iff_toNat c '\n',
    char_eq_iff_toNat c '\r', char_eq_iff_toNat c '\x0b', char_eq_iff_toNat c '\x0c',
    show (' ' : Char).toNat = 32 from by decide,
    show ('\t' : Char).toNat = 9 from by decide,
    show ('\n' : Char).toNat = 10 from by decide,
    show ('\r' : Char).toNat = 13 from by decide,
    show ('\x0b' : Char).toNat = 11 from by decide,
    show ('\x0c' : Char).toNat = 12 from by decide]
  tauto

theorem jsLowerChar_idem (c : Char) : jsLowerChar (jsLowerChar c) = jsLowerChar c := by
  unfold jsLowerChar
  split
  · next hc =>
    have := char_ofNat_toNat_range (c.toNat + 32) (by omega) (by omega)
    rw [if_neg (by omega)]
  · rfl

theorem isWsp_jsLowerChar (c : Char) : isWsp (jsLowerChar c) = isWsp c := by
  unfold jsLowerChar
  split
  · next hc =>
    have ht := char_ofNat_toNat_range (c.toNat + 32) (by omega) (by omega)
    have h1 : isWsp (Char.ofNat (c.toNat + 32)) = false := by
      rw [Bool.eq_false_iff]
      intro hw
      rw [isWsp_eq_true_iff, ht] at hw
      omega
    have h2 : isWsp c = false := by
      rw [Bool.eq_false_iff]
      intro hw
      rw [isWsp_eq_true_iff] at hw
      omega
    rw [h1, h2]
  · rfl

theorem jsLowerChar_eq_low (c d : Char) (hd : d.toNat < 97) (h : jsLowerChar c = d) :
    c = d := by
  unfold jsLowerChar at h
  split at h
  · next hc =>
    have ht := char_ofNat_toNat_range (c.toNat + 32) (by omega) (by omega)
    rw [h] at ht
    omega
  · exact h

theorem mem_of_mem_dropWhile {p : Char → Bool} {l : List Char} {a : Char}
    (h : a ∈ l.dropWhile p) : a ∈ l := by
  induction l with
  | nil => simp at h
  | cons c cs ih =>
    rw [List.dropWhile_cons] at h
    split at h
    · exact List.mem_cons_of_mem _ (ih h)
    · exact h

theorem jsTrim_mem {s : String} {a : Char} (h : a ∈ (jsTrim s).data) : a ∈ s.data := by
  unfold jsTrim at h
  simp only [List.mem_reverse] at h
  have h2 := mem_of_mem_dropWhile h
  simp only [List.mem_reverse] at h2
  exact mem_of_mem_dropWhile h2

theorem jsToLower_not_mem {s : String} {d : Char} (hd : d.toNat < 97)
    (h : d ∉ s.data) : d ∉ (jsToLower s).data := by
  unfold jsToLower
  intro hmem
  simp only [List.mem_map] at hmem
  obtain ⟨c, hc, hlc⟩ := hmem
  exact h (jsLowerChar_eq_low c d hd hlc ▸ hc)

theorem jsNormalize_not_mem {s : String} {d : Char} (hd : d.toNat < 97)
    (h : d ∉ s.data) : d ∉ (jsNormalize s).data := by
  unfold jsNormalize
  intro hmem
  exact jsToLower_not_mem hd h (jsTrim_mem hmem)

/-! ## Helper lemmas: splitting and joining -/

theorem jsSplit_ne_nil (sep : Char) (cs : List Char) : jsSplit sep cs ≠ [] :=
  List.splitOnP_ne_nil _ cs

theorem jsSplit_of_not_mem {sep : Char} {cs : List Char} (h : sep ∉ cs) :
    jsSplit sep cs = [cs] := by
  unfold jsSplit List.splitOn
  refine List.splitOnP_eq_single _ _ ?_
  intro x hx
  simp only [beq_iff_eq]
  intro he
  exact h (he ▸ hx)

theorem mem_of_mem_jsSplit {sep : Char} {cs g : List Char}
    (hg : g ∈ jsSplit sep cs) {a : Char} (ha : a ∈ g) : a ∈ cs := by
  unfold jsSplit List.splitOn at hg
  induction cs generalizing g with
  | nil =>
    simp only [List.splitOnP_nil, List.mem_singleton] at hg
    subst hg
    simp at ha
  | cons c cs ih =>
    rw [List.splitOnP_cons] at hg
    split at hg
    · rcases List.mem_cons.mp hg with h1 | h1
      · subst h1
        simp at ha
      · exact List.mem_cons_of_mem _ (ih h1 ha)
    · rcases he : cs.splitOnP (· == sep) with _ | ⟨g0, gs⟩
      · exact absurd he (List.splitOnP_ne_nil _ cs)
      · rw [he, List.modifyHead_cons] at hg
        rcases List.mem_cons.mp hg with h1 | h1
        · subst h1
          rcases List.mem_cons.mp ha with h2 | h2
          · exact h2 ▸ List.mem_cons_self _ _
          · exact List.mem_cons_of_mem _ (ih (he ▸ List.mem_cons_self g0 gs) h2)
        · exact List.mem_cons_of_mem _ (ih (he ▸ List.mem_cons_of_mem g0 h1) ha)

theorem joinDots_jsSplit (cs : List Char) : joinDots (jsSplit '.' cs) = cs := by
  unfold joinDots jsSplit
  exact List.intercalate_splitOn ..

/-! ## Helper lemmas: normalization is idempotent -/

theorem jsTrim_data (s : String) :
    (jsTrim s).data = List.rdropWhile isWsp (s.data.dropWhile isWsp) := rfl

theorem stringDataEq {s t : String} (h : s.data = t.data) : s = t := by
  cases s
  cases t
  exact congrArg String.mk h

theorem dropWhile_of_prefix {p : Char → Bool} {A B : List Char} (hBA : B <+: A)
    (hA : A.dropWhile p = A) : B.dropWhile p = B := by
  rw [List.dropWhile_eq_self_iff] at hA ⊢
  intro hl
  have hlA : 0 < A.length := lt_of_lt_of_le hl hBA.length_le
  have hfail := hA hlA
  have hg : B.get ⟨0, hl⟩ = A.get ⟨0, hlA⟩ := by
    simpa using List.IsPrefix.getElem hBA (n := 0) (by simpa using hl)
  rw [hg]
  exact hfail

theorem jsTrim_idem (s : String) : jsTrim (jsTrim s) = jsTrim s := by
  refine stringDataEq ?_
  rw [jsTrim_data (jsTrim s), jsTrim_data s]
  have h1 : ((s.data.dropWhile isWsp).rdropWhile isWsp).dropWhile isWsp =
      (s.data.dropWhile isWsp).rdropWhile isWsp :=
    dropWhile_of_prefix (List.rdropWhile_prefix _ _)
      (List.dropWhile_idempotent isWsp s.data)
  rw [h1, List.rdropWhile_idempotent]

theorem jsToLower_data (s : String) :
    (jsToLower s).data = s.data.map jsLowerChar := rfl

theorem jsToLower_idem (s : String) : jsToLower (jsToLower s) = jsToLower s := by
  refine stringDataEq ?_
  rw [jsToLower_data, jsToLower_data, List.map_map]
  exact List.map_congr_left fun c _ => jsLowerChar_idem c

theorem jsToLower_jsTrim_comm (s : String) :
    jsToLower (jsTrim s) = jsTrim (jsToLower s) := by
  have hw : (isWsp ∘ jsLowerChar) = isWsp := funext fun c => isWsp_jsLowerChar c
  refine stringDataEq ?_
  simp only [jsToLower_data, jsTrim_data, List.rdropWhile, List.dropWhile_map, hw,
    ← List.map_reverse]

theorem jsNormalize_idem (s : String) : jsNormalize (jsNormalize s) = jsNormalize s := by
  unfold jsNormalize
  rw [jsToLower_jsTrim_comm, jsTrim_idem, jsToLower_idem]

/-! ## Helper lemmas: strings and blocklists -/

theorem stringMkData (s : String) : String.mk s.data = s := by
  cases s
  rfl

theorem mapReacherStatusToReason_eq_spec (r : ReacherResponse) :
    mapReacherStatusToReason r = reasonPrecedenceSpec r := by
  rcases r with ⟨i, ir, sy, ⟨am, recs⟩, ⟨cc, fi, ca, de, di⟩, ⟨dp, ra, gu⟩⟩
  cases dp <;> cases am <;> cases cc <;> cases fi <;> cases di <;> cases ca <;> cases de <;> rfl

theorem githubSuffixHit_iff (bl : Blocklists) (parts : List (List Char)) :
    githubSuffixHit bl parts = true ↔
      ∃ i, 1 ≤ i ∧ i + 2 ≤ parts.length ∧
        (IMMEDIATE_BLOCKLIST.contains (String.mk (joinDots (parts.drop i))) = true ∨
         bl.github.contains (String.mk (joinDots (parts.drop i))) = true) := by
  unfold githubSuffixHit
  rw [List.any_eq_true]
  constructor
  · rintro ⟨i, hi, hset⟩
    rw [List.mem_range'_1] at hi
    refine ⟨i, hi.1, by omega, ?_⟩
    simpa using hset
  · rintro ⟨i, h1, h2, hset⟩
    refine ⟨i, ?_, by simpa using hset⟩
    rw [List.mem_range'_1]
    exact ⟨h1, by omega⟩

/-- C2, counterexample: the claim says the terminal state is chosen from the
sub-flags by first-true-wins precedence and that "if none of these flags holds
the result is VALID_DEEP (valid=true)".  On `riskyNoFlagResponse` no precedence
flag holds (its spec table finds nothing), yet the mapped result has
`valid = false`: the code derives validity solely from `is_reachable = safe`,
not from the flags. -/
theorem C2_counterexample :
    reasonPrecedenceSpec riskyNoFlagResponse = none ∧
    riskyNoFlagResponse.is_reachable ≠ ReachableStatus.safe ∧
    (transformReacherResponse "info@example.com" riskyNoFlagResponse).valid = false ∧
    (transformReacherResponse "info@example.com" riskyNoFlagResponse).reason = none := by
  refine ⟨rfl, by decide, rfl, rfl⟩

/-- C2, amended: when the deep mailbox oracle's response is mapped to a result,
`valid` is true exactly when the reachability class is `safe`; when it is not
`safe`, the reason is chosen by the first-true-wins precedence
disposable > rejects-mail > cannot-connect > full-inbox > disabled > catch-all
> not-deliverable, and is absent when no flag holds; when it is `safe` the
flags are ignored and the reason is absent. -/
theorem C2_precedence_amended (e : String) (r : ReacherResponse) :
    (transformReacherResponse e r).valid = (r.is_reachable = ReachableStatus.safe : Bool) ∧
    (transformReacherResponse e r).reason =
      (if r.is_reachable = ReachableStatus.safe then none else reasonPrecedenceSpec r) ∧
    mapReacherStatusToReason r = reasonPrecedenceSpec r := by
  refine ⟨rfl, ?_, mapReacherStatusToReason_eq_spec r⟩
  show (if !(decide (r.is_reachable = .safe)) then mapReacherStatusToReason r else none) = _
  rcases h : r.is_reachable <;>
    simp [h, mapReacherStatusToReason_eq_spec r]

/-- C3: the remote/immediate blocklist check hits exactly when the full domain
(`k = 0`) or a suffix obtained by dropping `1 .. n-2` leading labels is in the
immediate or fetched set — the bare TLD (dropping `n-1` labels) is never
tested; concretely, `xyz.tempmail.com` is flagged disposable with
`tempmail.com` in the remote blocklist, `tempmail.com.example.org` is not, and
a blocklisted bare TLD alone flags nothing. -/
theorem C3_ancestor_domain_algorithm :
    (∀ (bl : Blocklists) (domain : String),
      isInGitHubBlocklist bl domain = true ↔
        ∃ k, (k = 0 ∨ (1 ≤ k ∧ k + 2 ≤ (jsSplit '.' (jsToLower domain).data).length)) ∧
          (IMMEDIATE_BLOCKLIST.contains
              (String.mk (joinDots ((jsSplit '.' (jsToLower domain).data).drop k))) = true ∨
            bl.github.contains
              (String.mk (joinDots ((jsSplit '.' (jsToLower domain).data).drop k))) = true)) ∧
    isDisposableDomain ⟨[], [], ["tempmail.com"]⟩ "xyz.tempmail.com" = true ∧
    isDisposableDomain ⟨[], [], ["tempmail.com"]⟩ "tempmail.com.example.org" = false ∧
    isInGitHubBlocklist ⟨[], [], ["com"]⟩ "evil.com" = false := by
  refine ⟨?_, by decide, by decide, by decide⟩
  intro bl domain
  simp only [isInGitHubBlocklist]
  have hround : String.mk (joinDots ((jsSplit '.' (jsToLower domain).data).drop 0)) =
      jsToLower domain := by
    rw [List.drop_zero, joinDots_jsSplit, stringMkData]
  constructor
  · intro h
    split at h
    · next himm =>
      exact ⟨0, Or.inl rfl, Or.inl (by rw [hround]; exact himm)⟩
    · split at h
      · next hgh =>
        exact ⟨0, Or.inl rfl, Or.inr (by rw [hround]; exact hgh)⟩
      · obtain ⟨i, h1, h2, hset⟩ := (githubSuffixHit_iff bl _).mp h
        exact ⟨i, Or.inr ⟨h1, h2⟩, hset⟩
  · rintro ⟨k, hk, hset⟩
    rcases hk with rfl | ⟨h1, h2⟩
    · rw [hround] at hset
      split
      · rfl
      · next himm =>
        split
        · rfl
        · next hgh =>
          rcases hset with hs | hs
          · exact absurd hs himm
          · exact absurd hs hgh
    · split
      · rfl
      · split
        · rfl
        · exact (githubSuffixHit_iff bl _).mpr ⟨k, h1, h2, hset⟩

/-! ## Helper lemmas: the shallow phase -/

theorem runShallow_store_irrel (w : World) (st : List CacheEntry) (nw : Int)
    (n : String) (a b c : Bool) :
    runShallow { w with store := st, now := nw } n a b c = runShallow w n a b c := rfl

theorem runShallow_some_shape {w : World} {n : String} {a b c : Bool}
    {r : ValidationResult} {tr : List Ev}
    (h : runShallow w n a b c = (.ok (some r), tr)) :
    r.email = n ∧ r.smtp = none ∧ r.cached = false ∧ ReasonValidInv r := by
  simp only [runShallow] at h
  repeat' split at h
  all_goals simp only [Prod.mk.injEq, Except.ok.injEq, Option.some.injEq,
    reduceCtorEq, false_and, and_false] at h
  all_goals obtain ⟨h1, h2⟩ := h
  all_goals subst h1
  all_goals simp [createResult, ReasonValidInv]

theorem runShallow_trace_shape {w : World} {n : String} {a b c : Bool}
    {x : Except Unit (Option ValidationResult)} {tr : List Ev}
    (h : runShallow w n a b c = (x, tr)) :
    ∀ ev ∈ tr, ev = .nodeCall n ∨ ev = .debounceCall n := by
  simp only [runShallow] at h
  repeat' split at h
  all_goals simp only [Prod.mk.injEq] at h
  all_goals obtain ⟨h1, h2⟩ := h
  all_goals subst h2
  all_goals intro ev hev
  all_goals simp at hev
  all_goals tauto

theorem runShallow_error_shape {w : World} {n : String} {a b c : Bool}
    {u : Unit} {tr : List Ev}
    (h : runShallow w n a b c = (.error u, tr)) :
    w.nodeOracle n = .error () ∧ tr = [.nodeCall n] := by
  simp only [runShallow] at h
  repeat' split at h
  all_goals simp only [Prod.mk.injEq, reduceCtorEq, false_and, and_false] at h
  obtain ⟨h1, h2⟩ := h
  subst h2
  rename_i v heq
  cases v
  exact ⟨heq, rfl⟩

/-! ## Helper lemmas: transform shape and cache behaviour -/

theorem transformReacherResponse_shape (n : String) (resp : ReacherResponse) :
    (transformReacherResponse n resp).email = n ∧
    (transformReacherResponse n resp).cached = false ∧
    (transformReacherResponse n resp).smtp ≠ none ∧
    ReasonValidInv (transformReacherResponse n resp) := by
  cases h : resp.is_reachable <;>
    simp [transformReacherResponse, ReasonValidInv, h]

theorem memoryCacheGet_hit_store {store : List CacheEntry} {now : Int} {key : String}
    {v : ValidationResult} {st' : List CacheEntry}
    (h : memoryCacheGet store now key = (some v, st')) :
    st' = store ∧ ∃ en ∈ store, en.value = v ∧ en.key = key := by
  unfold memoryCacheGet at h
  split at h
  · simp at h
  · next e hfind =>
    split at h
    · simp at h
    · simp only [Prod.mk.injEq, Option.some.injEq] at h
      obtain ⟨h1, h2⟩ := h
      refine ⟨h2.symm, e, List.mem_of_find?_eq_some hfind, h1, ?_⟩
      have := List.find?_some hfind
      simpa using this

theorem memoryCacheGet_miss_again {store : List CacheEntry} {now : Int} {key : String}
    {st' : List CacheEntry}
    (h : memoryCacheGet store now key = (none, st')) :
    memoryCacheGet st' now key = (none, st') := by
  unfold memoryCacheGet at h ⊢
  split at h
  · next hfind =>
    simp only [Prod.mk.injEq, true_and] at h
    subst h
    rw [hfind]
  · next e hfind =>
    split at h
    · simp only [Prod.mk.injEq, true_and] at h
      subst h
      have hnone : (store.filter (fun x => x.key ≠ key)).find?
          (fun e => e.key == key) = none := by
        rw [List.find?_eq_none]
        intro x hx
        have := (List.mem_filter.mp hx).2
        simpa using this
      rw [hnone]
    · simp at h

theorem memoryCacheGet_after_set (store : List CacheEntry) (now : Int) (key : String)
    (v : ValidationResult) (ttl : Int) (httl : 0 < ttl) :
    memoryCacheGet (memoryCacheSet store now key v ttl) now key =
      (some v, memoryCacheSet store now key v ttl) := by
  unfold memoryCacheSet
  rw [if_neg (by omega)]
  unfold memoryCacheGet
  rw [List.find?_cons_of_pos _ (by simp)]
  dsimp only
  rw [if_neg (by omega)]

/-! ## C7: syntax failures return immediately with no collaborator calls -/

theorem emailRegexTest_no_at {cs : List Char} (h : '@' ∉ cs) :
    emailRegexTest cs = false := by
  unfold emailRegexTest
  rw [jsSplit_of_not_mem h]

theorem emailRegexTest_no_dot {cs : List Char} (h : '.' ∉ cs) :
    emailRegexTest cs = false := by
  unfold emailRegexTest
  rcases hs : jsSplit '@' cs with _ | ⟨l, _ | ⟨r, rest⟩⟩
  · rfl
  · rfl
  · cases rest with
    | nil =>
      have hdot : (r.tail.dropLast.contains '.') = false := by
        rw [Bool.eq_false_iff]
        intro hc
        have h1 : '.' ∈ r.tail.dropLast := by simpa using hc
        have h2 : '.' ∈ r.tail := (List.dropLast_sublist _).mem h1
        have h3 : '.' ∈ r := (List.tail_sublist r).mem h2
        exact h (mem_of_mem_jsSplit (hs ▸ (by simp : r ∈ [l, r])) h3)
      dsimp only
      rw [List.drop_one, Bool.and_eq_false_iff]
      exact Or.inr hdot
    | cons _ _ => rfl

/-- C7: for every input lacking an `@` or lacking a `.`, `validateEmail`
returns the `invalidSyntax` failure, leaves the world untouched, and records
no collaborator invocation at all (empty trace: no format/MX oracle, realtime
disposable oracle, cache, or deep oracle call). -/
theorem C7_syntax_fail_no_collaborators (w : World) (email : String)
    (opts : ValidationOptions)
    (h : '@' ∉ email.data ∨ '.' ∉ email.data) :
    validateEmail w email opts =
      (.ok (createResult (jsNormalize email) false (some .invalidSyntax) false false none none),
       w, []) := by
  have hreg : emailRegexTest (jsNormalize email).data = false := by
    rcases h with h | h
    · exact emailRegexTest_no_at (jsNormalize_not_mem (by decide) h)
    · exact emailRegexTest_no_dot (jsNormalize_not_mem (by decide) h)
  simp [validateEmail, runShallow, hreg]

/-- C7 witness: a concrete address without an `@`. -/
theorem C7_witness :
    validateEmail wBase "not-an-email" {} =
      (.ok (createResult (jsNormalize "not-an-email") false (some .invalidSyntax)
        false false none none), wBase, []) :=
  C7_syntax_fail_no_collaborators wBase "not-an-email" {} (Or.inl (by decide))

/-! ## Helper lemmas: orchestrator case characterizations -/

theorem runShallow_store_only (w : World) (st : List CacheEntry)
    (n : String) (a b c : Bool) :
    runShallow { w with store := st } n a b c = runShallow w n a b c := rfl

theorem validateEmail_eq_shallow {w : World} {e : String} {o : ValidationOptions}
    {r : ValidationResult} {tr : List Ev}
    (h : runShallow w (jsNormalize e) (o.checkMx.getD true) (o.useDeBounce.getD true)
      (o.deep.getD false) = (.ok (some r), tr)) :
    validateEmail w e o = (.ok r, w, tr) := by
  simp [validateEmail, h]

theorem validateEmail_eq_shallow_error {w : World} {e : String} {o : ValidationOptions}
    {u : Unit} {tr : List Ev}
    (h : runShallow w (jsNormalize e) (o.checkMx.getD true) (o.useDeBounce.getD true)
      (o.deep.getD false) = (.error u, tr)) :
    validateEmail w e o = (.ok (failOpenResult (jsNormalize e)), w, tr) := by
  simp [validateEmail, h]

theorem validateEmail_eq_deep_ok {w : World} {e : String} {o : ValidationOptions}
    {tr trd : List Ev} {r : ValidationResult} {st : List CacheEntry}
    (h : runShallow w (jsNormalize e) (o.checkMx.getD true) (o.useDeBounce.getD true)
      (o.deep.getD false) = (.ok none, tr))
    (hd : runDeep w (jsNormalize e) = (.ok r, st, trd)) :
    validateEmail w e o = (.ok r, { w with store := st }, tr ++ trd) := by
  simp [validateEmail, h, hd]

theorem validateEmail_eq_deep_notConfigured {w : World} {e : String}
    {o : ValidationOptions} {tr trd : List Ev} {st : List CacheEntry}
    (h : runShallow w (jsNormalize e) (o.checkMx.getD true) (o.useDeBounce.getD true)
      (o.deep.getD false) = (.ok none, tr))
    (hd : runDeep w (jsNormalize e) = (.error .notConfigured, st, trd)) :
    validateEmail w e o = (.error .notConfigured, { w with store := st }, tr ++ trd) := by
  simp [validateEmail, h, hd]

theorem validateEmail_eq_deep_oracleError {w : World} {e : String}
    {o : ValidationOptions} {tr trd : List Ev} {st : List CacheEntry}
    (h : runShallow w (jsNormalize e) (o.checkMx.getD true) (o.useDeBounce.getD true)
      (o.deep.getD false) = (.ok none, tr))
    (hd : runDeep w (jsNormalize e) = (.error .oracleError, st, trd)) :
    validateEmail w e o = (.ok (failOpenResult (jsNormalize e)), { w with store := st },
      tr ++ trd) := by
  simp [validateEmail, h, hd]

theorem runDeep_hit {w : World} {n : String} {v : ValidationResult}
    {st1 : List CacheEntry}
    (hc : w.cacheEnabled = true)
    (hg : getFromCache w.store w.now n = (some v, st1)) :
    runDeep w n = (.ok { v with cached := true }, st1, [.cacheGet (getCacheKey n)]) := by
  simp [runDeep, hc, hg]

theorem runDeep_miss {w : World} {n : String} {st1 : List CacheEntry}
    (hc : w.cacheEnabled = true)
    (hg : getFromCache w.store w.now n = (none, st1)) :
    runDeep w n = runReacherStep w st1 n [.cacheGet (getCacheKey n)] := by
  simp [runDeep, hc, hg]

theorem runDeep_nocache {w : World} {n : String}
    (hc : w.cacheEnabled = false) :
    runDeep w n = runReacherStep w w.store n [] := by
  simp [runDeep, hc]

theorem runReacherStep_notConfigured {w : World} {st : List CacheEntry} {n : String}
    {tr : List Ev} (hc : w.reacherConfigured = false) :
    runReacherStep w st n tr = (.error .notConfigured, st, tr ++ [.reacherCall n]) := by
  simp [runReacherStep, checkMailbox, hc]

theorem runReacherStep_oracleError {w : World} {st : List CacheEntry} {n : String}
    {tr : List Ev} (hc : w.reacherConfigured = true)
    (ho : w.reacherOracle n = .error ()) :
    runReacherStep w st n tr = (.error .oracleError, st, tr ++ [.reacherCall n]) := by
  simp [runReacherStep, checkMailbox, hc, ho]

theorem runReacherStep_ok_write {w : World} {st : List CacheEntry} {n : String}
    {tr : List Ev} {resp : ReacherResponse} (hc : w.reacherConfigured = true)
    (ho : w.reacherOracle n = .ok resp)
    (hw : (w.cacheEnabled && decide (0 < w.ttl resp.is_reachable)) = true) :
    runReacherStep w st n tr = (.ok (transformReacherResponse n resp),
      setInCache st w.now n (transformReacherResponse n resp) (w.ttl resp.is_reachable),
      tr ++ [.reacherCall n, .cacheSet (getCacheKey n)]) := by
  simp [runReacherStep, checkMailbox, hc, ho, hw]

theorem runReacherStep_ok_nowrite {w : World} {st : List CacheEntry} {n : String}
    {tr : List Ev} {resp : ReacherResponse} (hc : w.reacherConfigured = true)
    (ho : w.reacherOracle n = .ok resp)
    (hw : (w.cacheEnabled && decide (0 < w.ttl resp.is_reachable)) = false) :
    runReacherStep w st n tr = (.ok (transformReacherResponse n resp), st,
      tr ++ [.reacherCall n]) := by
  simp [runReacherStep, checkMailbox, hc, ho, hw]

theorem runShallow_nodeCall_mem {w : World} {n : String} {a b c : Bool}
    {x : Except Unit (Option ValidationResult)} {tr : List Ev}
    (h : runShallow w n a b c = (x, tr)) (herr : w.nodeOracle n = .error ())
    (hmem : Ev.nodeCall n ∈ tr) :
    x = .error () ∧ tr = [.nodeCall n] := by
  simp only [runShallow] at h
  repeat' split at h
  all_goals simp only [Prod.mk.injEq] at h
  all_goals obtain ⟨h1, h2⟩ := h
  all_goals subst h2
  all_goals simp_all

theorem checkMailbox_ok_shape {w : World} {n : String} {resp : ReacherResponse}
    (h : checkMailbox w n = .ok resp) :
    w.reacherConfigured = true ∧ w.reacherOracle n = .ok resp := by
  unfold checkMailbox at h
  split at h
  · next hconf =>
    split at h
    · next horc =>
      simp only [Except.ok.injEq] at h
      exact ⟨hconf, h ▸ horc⟩
    · simp at h
  · simp at h

theorem runReacherStep_ok_shape {w : World} {st : List CacheEntry} {n : String}
    {tr : List Ev} {r : ValidationResult} {st' : List CacheEntry} {tr' : List Ev}
    (h : runReacherStep w st n tr = (.ok r, st', tr')) :
    ∃ resp, w.reacherConfigured = true ∧ w.reacherOracle n = .ok resp ∧
      r = transformReacherResponse n resp := by
  simp only [runReacherStep] at h
  split at h
  · simp at h
  · next resp hcm =>
    obtain ⟨hconf, horc⟩ := checkMailbox_ok_shape hcm
    split at h
    · simp only [Prod.mk.injEq, Except.ok.injEq] at h
      exact ⟨resp, hconf, horc, h.1.symm⟩
    · simp only [Prod.mk.injEq, Except.ok.injEq] at h
      exact ⟨resp, hconf, horc, h.1.symm⟩

theorem getFromCache_hit_store {store : List CacheEntry} {now : Int} {email : String}
    {v : ValidationResult} {st' : List CacheEntry}
    (h : getFromCache store now email = (some v, st')) :
    st' = store ∧ ∃ en ∈ store, en.value = v ∧ en.key = getCacheKey email :=
  memoryCacheGet_hit_store h

theorem reasonValidInv_cached {v : ValidationResult} (h : ReasonValidInv v) (b : Bool) :
    ReasonValidInv { v with cached := b } := by
  simpa [ReasonValidInv] using h

/-- C1, counterexample: a deep validation against a configured oracle whose
response is `riskyNoFlagResponse` returns a result with `valid = false` and
`reason` absent — refuting "reason is absent iff valid is true" in the
only-if direction. -/
theorem C1_counterexample :
    ((validateEmail wBase "info@example.com" deepOpts).1.toOption.map
      ValidationResult.valid = some false) ∧
    ((validateEmail wBase "info@example.com" deepOpts).1.toOption.map
      ValidationResult.reason = some none) := by
  constructor <;> rfl

/-- C1, amended: provided every cached value satisfies the same invariant,
every result of `validateEmail` satisfies: `valid = true` implies `reason`
absent, and for results without an `smtp` sub-structure (all results not built
from a deep-oracle response) `reason` is absent iff `valid` is true.  The
unrestricted "iff" fails only for deep results: a non-`safe` reachability with
no precedence flag set yields `valid = false` with `reason` absent
(see the counterexample). -/
theorem C1_reason_valid_amended (w : World) (e : String) (o : ValidationOptions)
    (r : ValidationResult) (hstore : StoreInv w.store)
    (h : (validateEmail w e o).1 = .ok r) : ReasonValidInv r := by
  rcases hsh : runShallow w (jsNormalize e) (o.checkMx.getD true)
    (o.useDeBounce.getD true) (o.deep.getD false) with ⟨x, trs⟩
  match x, hsh with
  | .error u, hsh =>
    rw [validateEmail_eq_shallow_error hsh] at h
    simp only [Except.ok.injEq] at h
    subst h
    simp [ReasonValidInv, failOpenResult, createResult]
  | .ok (some r'), hsh =>
    rw [validateEmail_eq_shallow hsh] at h
    simp only [Except.ok.injEq] at h
    subst h
    exact (runShallow_some_shape hsh).2.2.2
  | .ok none, hsh =>
    rcases hd : runDeep w (jsNormalize e) with ⟨res, st, trd⟩
    match res, hd with
    | .error .notConfigured, hd =>
      rw [validateEmail_eq_deep_notConfigured hsh hd] at h
      simp at h
    | .error .oracleError, hd =>
      rw [validateEmail_eq_deep_oracleError hsh hd] at h
      simp only [Except.ok.injEq] at h
      subst h
      simp [ReasonValidInv, failOpenResult, createResult]
    | .ok r', hd =>
      rw [validateEmail_eq_deep_ok hsh hd] at h
      simp only [Except.ok.injEq] at h
      subst h
      by_cases hc : w.cacheEnabled = true
      · rcases hg : getFromCache w.store w.now (jsNormalize e) with ⟨g, st1⟩
        match g, hg with
        | some v, hg =>
          rw [runDeep_hit hc hg] at hd
          simp only [Prod.mk.injEq, Except.ok.injEq] at hd
          obtain ⟨en, hen, henv, -⟩ := (getFromCache_hit_store hg).2
          rw [← hd.1]
          exact reasonValidInv_cached (henv ▸ hstore en hen) true
        | none, hg =>
          rw [runDeep_miss hc hg] at hd
          obtain ⟨resp, -, -, hr⟩ := runReacherStep_ok_shape hd
          rw [hr]
          exact (transformReacherResponse_shape _ resp).2.2.2
      · rw [runDeep_nocache (by simpa using hc)] at hd
        obtain ⟨resp, -, -, hr⟩ := runReacherStep_ok_shape hd
        rw [hr]
        exact (transformReacherResponse_shape _ resp).2.2.2

/-- C1 witness: the amended invariant at a concrete shallow validation with an
empty (trivially invariant) cache store. -/
theorem C1_witness :
    ReasonValidInv (createResult "a@b.co" true none false true none none) :=
  C1_reason_valid_amended wBase "a@b.co" {} _
    (fun en hen => absurd hen (by simp [wBase])) rfl

/-- C6: with deep verification requested and caching enabled, once the shallow
phase passes, the orchestrator performs exactly one cache lookup by the
normalized email; on a hit the cached result is returned annotated
`cached := true`, the deep oracle is never invoked, no cache write occurs, and
the store is untouched (no refresh-on-hit). -/
theorem C6_cache_hit (w : World) (e : String) (o : ValidationOptions)
    (v : ValidationResult) (st1 : List CacheEntry) (trs : List Ev)
    (_hdeep : o.deep.getD false = true)
    (hcache : w.cacheEnabled = true)
    (hsh : runShallow w (jsNormalize e) (o.checkMx.getD true) (o.useDeBounce.getD true)
      (o.deep.getD false) = (.ok none, trs))
    (hhit : getFromCache w.store w.now (jsNormalize e) = (some v, st1)) :
    validateEmail w e o =
      (.ok { v with cached := true }, w,
        trs ++ [.cacheGet (getCacheKey (jsNormalize e))]) ∧
    (∀ m, Ev.reacherCall m ∉ (validateEmail w e o).2.2) ∧
    (∀ k, Ev.cacheSet k ∉ (validateEmail w e o).2.2) := by
  have hst : st1 = w.store := (getFromCache_hit_store hhit).1
  subst hst
  have hv := validateEmail_eq_deep_ok hsh (runDeep_hit hcache hhit)
  have htrs := runShallow_trace_shape hsh
  have hmain : validateEmail w e o =
      (.ok { v with cached := true }, w,
        trs ++ [.cacheGet (getCacheKey (jsNormalize e))]) := hv
  refine ⟨hmain, ?_, ?_⟩
  · intro m hm
    rw [hmain] at hm
    simp only [List.mem_append, List.mem_singleton] at hm
    rcases hm with hm | hm
    · rcases htrs _ hm with h1 | h1 <;> simp at h1
    · simp at hm
  · intro k hk
    rw [hmain] at hk
    simp only [List.mem_append, List.mem_singleton] at hk
    rcases hk with hk | hk
    · rcases htrs _ hk with h1 | h1 <;> simp at h1
    · simp at hk

/-- C6 witness: a concrete cache hit — the stored value comes back annotated
`cached := true`, with only node, DeBounce and cache-get in the trace. -/
theorem C6_witness :
    validateEmail wHit "a@b.co" deepOpts =
      (.ok { cachedValueEx with cached := true }, wHit,
       [.nodeCall "a@b.co", .debounceCall "a@b.co", .cacheGet (getCacheKey "a@b.co")]) :=
  (C6_cache_hit wHit "a@b.co" deepOpts cachedValueEx wHit.store
    [.nodeCall "a@b.co", .debounceCall "a@b.co"] rfl rfl rfl rfl).1

/-- C5: a cache set with `ttlSeconds ≤ 0` is a no-op leaving the store
unchanged (both at the `setInCache` wrapper and at the `MemoryCache` store);
the default TTL for reachability `unknown` is 0; consequently a deep result
with reachability `unknown` (under the default TTL for `unknown`) records no
cache write, and an immediate repeat call invokes the deep oracle again. -/
theorem C5_ttl_nonpositive_never_written :
    (∀ (store : List CacheEntry) (now : Int) (email : String)
        (value : ValidationResult) (ttl : Int), ttl ≤ 0 →
      setInCache store now email value ttl = store) ∧
    (∀ (store : List CacheEntry) (now : Int) (key : String)
        (value : ValidationResult) (ttl : Int), ttl ≤ 0 →
      memoryCacheSet store now key value ttl = store) ∧
    DEFAULT_TTL .unknown = 0 ∧
    (∀ (w : World) (e : String) (o : ValidationOptions) (resp : ReacherResponse)
        (trs : List Ev),
      w.ttl .unknown = DEFAULT_TTL .unknown →
      runShallow w (jsNormalize e) (o.checkMx.getD true) (o.useDeBounce.getD true)
        (o.deep.getD false) = (.ok none, trs) →
      w.reacherConfigured = true →
      w.reacherOracle (jsNormalize e) = .ok resp →
      resp.is_reachable = .unknown →
      (w.cacheEnabled = true → (getFromCache w.store w.now (jsNormalize e)).1 = none) →
      (∀ k, Ev.cacheSet k ∉ (validateEmail w e o).2.2) ∧
      Ev.reacherCall (jsNormalize e) ∈ (validateEmail w e o).2.2 ∧
      Ev.reacherCall (jsNormalize e) ∈
        (validateEmail (validateEmail w e o).2.1 e o).2.2) := by
  refine ⟨fun store now email value ttl h => by simp [setInCache, h],
    fun store now key value ttl h => by simp [memoryCacheSet, h], rfl, ?_⟩
  intro w e o resp trs httl hsh hconf horc hunk hmiss
  have httl0 : w.ttl ReachableStatus.unknown = 0 := by rw [httl]; rfl
  have hwf : (w.cacheEnabled && decide (0 < w.ttl resp.is_reachable)) = false := by
    rw [hunk, httl0]
    simp
  have htrs := runShallow_trace_shape hsh
  by_cases hc : w.cacheEnabled = true
  · rcases hg : getFromCache w.store w.now (jsNormalize e) with ⟨g, st1⟩
    have hgn : g = none := by
      have := hmiss hc
      rw [hg] at this
      exact this
    subst hgn
    have hd : runDeep w (jsNormalize e) =
        (.ok (transformReacherResponse (jsNormalize e) resp), st1,
          [.cacheGet (getCacheKey (jsNormalize e)), .reacherCall (jsNormalize e)]) := by
      rw [runDeep_miss hc hg, runReacherStep_ok_nowrite hconf horc hwf]
      rfl
    have hv := validateEmail_eq_deep_ok hsh hd
    have hg2 : getFromCache st1 w.now (jsNormalize e) = (none, st1) :=
      memoryCacheGet_miss_again hg
    have hsh2 : runShallow { w with store := st1 } (jsNormalize e)
        (o.checkMx.getD true) (o.useDeBounce.getD true) (o.deep.getD false) =
        (.ok none, trs) := by
      rw [runShallow_store_only]
      exact hsh
    have hd2 : runDeep { w with store := st1 } (jsNormalize e) =
        (.ok (transformReacherResponse (jsNormalize e) resp), st1,
          [.cacheGet (getCacheKey (jsNormalize e)), .reacherCall (jsNormalize e)]) := by
      rw [runDeep_miss (w := { w with store := st1 }) hc hg2,
        runReacherStep_ok_nowrite (w := { w with store := st1 }) hconf horc hwf]
      rfl
    have hv2 := validateEmail_eq_deep_ok hsh2 hd2
    refine ⟨?_, ?_, ?_⟩
    · intro k hk
      rw [hv] at hk
      simp only [List.mem_append, List.mem_cons, List.mem_singleton] at hk
      rcases hk with hk | hk | hk | hk
      · rcases htrs _ hk with h1 | h1 <;> simp at h1
      · simp at hk
      · simp at hk
      · simp at hk
    · rw [hv]
      simp
    · rw [hv]
      simp only []
      rw [hv2]
      simp
  · have hcf : w.cacheEnabled = false := by simpa using hc
    have hd : runDeep w (jsNormalize e) =
        (.ok (transformReacherResponse (jsNormalize e) resp), w.store,
          [.reacherCall (jsNormalize e)]) := by
      rw [runDeep_nocache hcf, runReacherStep_ok_nowrite hconf horc hwf]
      simp
    have hv := validateEmail_eq_deep_ok hsh hd
    have hsh2 : runShallow { w with store := w.store } (jsNormalize e)
        (o.checkMx.getD true) (o.useDeBounce.getD true) (o.deep.getD false) =
        (.ok none, trs) := by
      rw [runShallow_store_only]
      exact hsh
    have hd2 : runDeep { w with store := w.store } (jsNormalize e) =
        (.ok (transformReacherResponse (jsNormalize e) resp), w.store,
          [.reacherCall (jsNormalize e)]) := by
      rw [runDeep_nocache (w := { w with store := w.store }) hcf,
        runReacherStep_ok_nowrite (w := { w with store := w.store }) hconf horc hwf]
      simp
    have hv2 := validateEmail_eq_deep_ok hsh2 hd2
    refine ⟨?_, ?_, ?_⟩
    · intro k hk
      rw [hv] at hk
      simp only [List.mem_append, List.mem_singleton] at hk
      rcases hk with hk | hk
      · rcases htrs _ hk with h1 | h1 <;> simp at h1
      · simp at hk
    · rw [hv]
      simp
    · rw [hv]
      simp only []
      rw [hv2]
      simp

/-- C5 witness: the no-op write at TTL 0 and, in the `wUnknown` world, the
deep oracle invoked again on the immediate repeat call. -/
theorem C5_witness :
    setInCache [] 0 "x" cachedValueEx 0 = [] ∧
    Ev.reacherCall "a@b.co" ∈ (validateEmail wUnknown "a@b.co" deepOpts).2.2 ∧
    Ev.reacherCall "a@b.co" ∈
      (validateEmail (validateEmail wUnknown "a@b.co" deepOpts).2.1
        "a@b.co" deepOpts).2.2 := by
  have h := C5_ttl_nonpositive_never_written
  have hrun := h.2.2.2 wUnknown "a@b.co" deepOpts unknownResponse
    [.nodeCall "a@b.co", .debounceCall "a@b.co"] rfl rfl rfl rfl rfl (fun _ => rfl)
  exact ⟨h.1 [] 0 "x" cachedValueEx 0 (by decide), hrun.2.1, hrun.2.2⟩

theorem nodeErr_not_reached {w : World} {n : String} {a b c : Bool}
    {x : Except Unit (Option ValidationResult)} {trs : List Ev}
    (hsh : runShallow w n a b c = (x, trs)) (hx : x ≠ .error ())
    (herr : w.nodeOracle n = .error ()) : Ev.nodeCall n ∉ trs :=
  fun hmem => hx (runShallow_nodeCall_mem hsh herr hmem).1

/-- C4: `validateEmail` raises an error exactly when the deep step is reached
(a `reacherCall` is attempted) with no backend configured; that error is always
the distinguishable `ReacherNotConfiguredError`; and whenever the
node-verifier call or a configured Reacher call fails, the outcome is the
fail-open result (valid, no reason, not disposable, mx true) — never a
rethrow. -/
theorem C4_error_taxonomy (w : World) (e : String) (o : ValidationOptions) :
    ((validateEmail w e o).1 = .error JsError.notConfigured ↔
      (Ev.reacherCall (jsNormalize e) ∈ (validateEmail w e o).2.2 ∧
        w.reacherConfigured = false)) ∧
    (∀ er, (validateEmail w e o).1 = .error er → er = JsError.notConfigured) ∧
    ((w.nodeOracle (jsNormalize e) = .error () ∧
        Ev.nodeCall (jsNormalize e) ∈ (validateEmail w e o).2.2) →
      (validateEmail w e o).1 = .ok (failOpenResult (jsNormalize e))) ∧
    ((w.reacherConfigured = true ∧ w.reacherOracle (jsNormalize e) = .error () ∧
        Ev.reacherCall (jsNormalize e) ∈ (validateEmail w e o).2.2) →
      (validateEmail w e o).1 = .ok (failOpenResult (jsNormalize e))) := by
  rcases hsh : runShallow w (jsNormalize e) (o.checkMx.getD true)
    (o.useDeBounce.getD true) (o.deep.getD false) with ⟨x, trs⟩
  have htrs := runShallow_trace_shape hsh
  match x, hsh with
  | .error u, hsh =>
    have hv := validateEmail_eq_shallow_error hsh
    obtain ⟨-, htr⟩ := runShallow_error_shape hsh
    subst htr
    rw [hv]
    refine ⟨⟨fun h => by simp at h, fun ⟨hm, _⟩ => by simp at hm⟩,
      fun er h => by simp at h, fun _ => rfl, fun ⟨_, _, hm⟩ => by simp at hm⟩
  | .ok (some r), hsh =>
    have hv := validateEmail_eq_shallow hsh
    rw [hv]
    refine ⟨⟨fun h => by simp at h, ?_⟩, fun er h => by simp at h, ?_, ?_⟩
    · rintro ⟨hm, -⟩
      rcases htrs _ hm with h1 | h1 <;> simp at h1
    · rintro ⟨herr, hm⟩
      exact absurd hm (nodeErr_not_reached hsh (by simp) herr)
    · rintro ⟨-, -, hm⟩
      rcases htrs _ hm with h1 | h1 <;> simp at h1
  | .ok none, hsh =>
    have hnode : ∀ (tl : List Ev),
        (∀ ev ∈ tl, ev ≠ Ev.nodeCall (jsNormalize e)) →
        (w.nodeOracle (jsNormalize e) = .error () ∧
          Ev.nodeCall (jsNormalize e) ∈ trs ++ tl) → False := by
      rintro tl htl ⟨herr, hm⟩
      rcases List.mem_append.mp hm with hm | hm
      · exact nodeErr_not_reached hsh (by simp) herr hm
      · exact htl _ hm rfl
    by_cases hc : w.cacheEnabled = true
    · rcases hg : getFromCache w.store w.now (jsNormalize e) with ⟨g, st1⟩
      match g, hg with
      | some v, hg =>
        have hv := validateEmail_eq_deep_ok hsh (runDeep_hit hc hg)
        rw [hv]
        refine ⟨⟨fun h => by simp at h, ?_⟩, fun er h => by simp at h, ?_, ?_⟩
        · rintro ⟨hm, -⟩
          rcases List.mem_append.mp hm with hm | hm
          · rcases htrs _ hm with h1 | h1 <;> simp at h1
          · simp at hm
        · intro hhyp
          exact absurd hhyp (fun hh => hnode _ (by simp) hh)
        · rintro ⟨-, -, hm⟩
          rcases List.mem_append.mp hm with hm | hm
          · rcases htrs _ hm with h1 | h1 <;> simp at h1
          · simp at hm
      | none, hg =>
        have hdm := runDeep_miss hc hg
        by_cases hconf : w.reacherConfigured = true
        · rcases horc : w.reacherOracle (jsNormalize e) with u | resp
          · cases u
            have hv := validateEmail_eq_deep_oracleError hsh
              (by rw [hdm, runReacherStep_oracleError hconf horc])
            rw [hv]
            refine ⟨⟨fun h => by simp at h, ?_⟩, fun er h => by simp at h, ?_,
              fun _ => rfl⟩
            · rintro ⟨-, hcf⟩
              rw [hconf] at hcf
              simp at hcf
            · intro hhyp
              exact absurd hhyp (fun hh => hnode _ (by simp) hh)
          · by_cases hwr : (w.cacheEnabled &&
                decide (0 < w.ttl resp.is_reachable)) = true
            · have hv := validateEmail_eq_deep_ok hsh
                (by rw [hdm, runReacherStep_ok_write hconf horc hwr])
              rw [hv]
              refine ⟨⟨fun h => by simp at h, ?_⟩, fun er h => by simp at h, ?_, ?_⟩
              · rintro ⟨-, hcf⟩
                rw [hconf] at hcf
                simp at hcf
              · intro hhyp
                exact absurd hhyp (fun hh => hnode _ (by simp) hh)
              · rintro ⟨-, herr, -⟩
                simp at herr
            · have hv := validateEmail_eq_deep_ok hsh
                (by rw [hdm, runReacherStep_ok_nowrite hconf horc
                  (by simpa using hwr)])
              rw [hv]
              refine ⟨⟨fun h => by simp at h, ?_⟩, fun er h => by simp at h, ?_, ?_⟩
              · rintro ⟨-, hcf⟩
                rw [hconf] at hcf
                simp at hcf
              · intro hhyp
                exact absurd hhyp (fun hh => hnode _ (by simp) hh)
              · rintro ⟨-, herr, -⟩
                simp at herr
        · have hcf : w.reacherConfigured = false := by simpa using hconf
          have hv := validateEmail_eq_deep_notConfigured hsh
            (by rw [hdm, runReacherStep_notConfigured hcf])
          rw [hv]
          refine ⟨⟨fun _ => ⟨by simp, hcf⟩, fun _ => rfl⟩,
            fun er h => by simpa using h.symm, ?_, ?_⟩
          · intro hhyp
            exact absurd hhyp (fun hh => hnode _ (by simp) hh)
          · rintro ⟨hcc, -, -⟩
            rw [hcf] at hcc
            simp at hcc
    · have hcf : w.cacheEnabled = false := by simpa using hc
      have hdm := runDeep_nocache (n := jsNormalize e) hcf
      by_cases hconf : w.reacherConfigured = true
      · rcases horc : w.reacherOracle (jsNormalize e) with u | resp
        · cases u
          have hv := validateEmail_eq_deep_oracleError hsh
            (by rw [hdm, runReacherStep_oracleError hconf horc])
          rw [hv]
          refine ⟨⟨fun h => by simp at h, ?_⟩, fun er h => by simp at h, ?_,
            fun _ => rfl⟩
          · rintro ⟨-, hcc⟩
            rw [hconf] at hcc
            simp at hcc
          · intro hhyp
            exact absurd hhyp (fun hh => hnode _ (by simp) hh)
        · have hwr : (w.cacheEnabled && decide (0 < w.ttl resp.is_reachable)) = false := by
            rw [hcf]
            simp
          have hv := validateEmail_eq_deep_ok hsh
            (by rw [hdm, runReacherStep_ok_nowrite hconf horc hwr])
          rw [hv]
          refine ⟨⟨fun h => by simp at h, ?_⟩, fun er h => by simp at h, ?_, ?_⟩
          · rintro ⟨-, hcc⟩
            rw [hconf] at hcc
            simp at hcc
          · intro hhyp
            exact absurd hhyp (fun hh => hnode _ (by simp) hh)
          · rintro ⟨-, herr, -⟩
            simp at herr
      · have hcf2 : w.reacherConfigured = false := by simpa using hconf
        have hv := validateEmail_eq_deep_notConfigured hsh
          (by rw [hdm, runReacherStep_notConfigured hcf2])
        rw [hv]
        refine ⟨⟨fun _ => ⟨by simp, hcf2⟩, fun _ => rfl⟩,
          fun er h => by simpa using h.symm, ?_, ?_⟩
        · intro hhyp
          exact absurd hhyp (fun hh => hnode _ (by simp) hh)
        · rintro ⟨hcc, -, -⟩
          rw [hcf2] at hcc
          simp at hcc

/-- C4 witness: at `wUnconfigured` in deep mode the distinguishable
configuration error is raised, and at `wNodeErr` the fail-open result is
returned. -/
theorem C4_witness :
    (validateEmail wUnconfigured "a@b.co" deepOpts).1 = .error JsError.notConfigured ∧
    (validateEmail wNodeErr "a@b.co" deepOpts).1 =
      .ok (failOpenResult (jsNormalize "a@b.co")) := by
  constructor
  · exact ((C4_error_taxonomy wUnconfigured "a@b.co" deepOpts).1).mpr
      ⟨by decide, rfl⟩
  · exact (C4_error_taxonomy wNodeErr "a@b.co" deepOpts).2.2.1 ⟨rfl, by decide⟩

/-! ## Helper lemmas: store well-formedness -/

theorem stringAppendCancelLeft {s a b : String} (h : s ++ a = s ++ b) : a = b := by
  have hd : s.data ++ a.data = s.data ++ b.data := by
    rw [← String.data_append, ← String.data_append, h]
  exact stringDataEq (List.append_cancel_left hd)

theorem memoryCacheGet_snd_subset (store : List CacheEntry) (now : Int) (key : String) :
    ∀ en ∈ (memoryCacheGet store now key).2, en ∈ store := by
  intro en hen
  unfold memoryCacheGet at hen
  split at hen
  · exact hen
  · split at hen
    · exact (List.mem_filter.mp hen).1
    · exact hen

theorem getCacheKey_normalized (n : String) (hn : jsNormalize n = n) :
    getCacheKey n = cacheKeyPrefixStr ++ n := by
  rw [getCacheKey, hn]

/-- Every write `validateEmail` performs keeps the store well formed: entries
sit under the key of their own email, which is normalized, and cached values
satisfy the reason/valid invariant. -/
theorem validateEmail_preserves_store (w : World) (e : String) (o : ValidationOptions)
    (hwf : StoreWF w.store) (hinv : StoreInv w.store) :
    StoreWF (validateEmail w e o).2.1.store ∧ StoreInv (validateEmail w e o).2.1.store := by
  rcases hsh : runShallow w (jsNormalize e) (o.checkMx.getD true)
    (o.useDeBounce.getD true) (o.deep.getD false) with ⟨x, trs⟩
  match x, hsh with
  | .error u, hsh =>
    rw [validateEmail_eq_shallow_error hsh]
    exact ⟨hwf, hinv⟩
  | .ok (some r), hsh =>
    rw [validateEmail_eq_shallow hsh]
    exact ⟨hwf, hinv⟩
  | .ok none, hsh =>
    have hkey : getCacheKey (jsNormalize e) = cacheKeyPrefixStr ++ jsNormalize e :=
      getCacheKey_normalized _ (jsNormalize_idem e)
    rcases hd : runDeep w (jsNormalize e) with ⟨res, st, trd⟩
    have hst : ∀ en ∈ st, en ∈ w.store ∨
        (en.key = getCacheKey (jsNormalize e) ∧
          ∃ resp, en.value = transformReacherResponse (jsNormalize e) resp) := by
      intro en hen
      unfold runDeep at hd
      split at hd
      · split at hd
        · next v st1 hget =>
          simp only [Prod.mk.injEq] at hd
          rw [← hd.2.1] at hen
          exact Or.inl (memoryCacheGet_snd_subset _ _ _ en (by
            rw [show (memoryCacheGet w.store w.now (getCacheKey (jsNormalize e))).2 = st1
              from congrArg Prod.snd hget]
            exact hen))
        · next st1 hget =>
          have hsub : ∀ x ∈ st1, x ∈ w.store := by
            intro x hx
            exact memoryCacheGet_snd_subset _ _ _ x (by
              rw [show (memoryCacheGet w.store w.now (getCacheKey (jsNormalize e))).2 = st1
                from congrArg Prod.snd hget]
              exact hx)
          unfold runReacherStep at hd
          split at hd
          · simp only [Prod.mk.injEq] at hd
            rw [← hd.2.1] at hen
            exact Or.inl (hsub en hen)
          · next resp hcm =>
            split at hd
            · simp only [Prod.mk.injEq] at hd
              rw [← hd.2.1] at hen
              unfold setInCache memoryCacheSet at hen
              split at hen
              · exact Or.inl (hsub en hen)
              · rcases List.mem_cons.mp hen with hen | hen
                · subst hen
                  exact Or.inr ⟨rfl, resp, rfl⟩
                · exact Or.inl (hsub en (List.mem_filter.mp hen).1)
            · simp only [Prod.mk.injEq] at hd
              rw [← hd.2.1] at hen
              exact Or.inl (hsub en hen)
      · unfold runReacherStep at hd
        split at hd
        · simp only [Prod.mk.injEq] at hd
          rw [← hd.2.1] at hen
          exact Or.inl hen
        · next resp hcm =>
          split at hd
          · simp only [Prod.mk.injEq] at hd
            rw [← hd.2.1] at hen
            unfold setInCache memoryCacheSet at hen
            split at hen
            · exact Or.inl hen
            · rcases List.mem_cons.mp hen with hen | hen
              · subst hen
                exact Or.inr ⟨rfl, resp, rfl⟩
              · exact Or.inl (List.mem_filter.mp hen).1
          · simp only [Prod.mk.injEq] at hd
            rw [← hd.2.1] at hen
            exact Or.inl hen
    have hout : (validateEmail w e o).2.1.store = st := by
      match res, hd with
      | .error .notConfigured, hd => rw [validateEmail_eq_deep_notConfigured hsh hd]
      | .error .oracleError, hd => rw [validateEmail_eq_deep_oracleError hsh hd]
      | .ok r, hd => rw [validateEmail_eq_deep_ok hsh hd]
    rw [hout]
    constructor
    · intro en hen
      rcases hst en hen with hmem | ⟨hk, resp, hv⟩
      · exact hwf en hmem
      · rw [hk, hv, hkey]
        have : (transformReacherResponse (jsNormalize e) resp).email = jsNormalize e :=
          (transformReacherResponse_shape _ _).1
        rw [this]
    · intro en hen
      rcases hst en hen with hmem | ⟨hk, resp, hv⟩
      · exact hinv en hmem
      · rw [hv]
        exact (transformReacherResponse_shape _ _).2.2.2

/-- C10: on every return path — syntax failure, local-blocklist disposable,
shallow success, cache hit, deep result, and the fail-open error path — the
`email` field of the returned result is the input lowercased and trimmed
(given the cache well-formedness that `validateEmail`'s own writes maintain,
see `validateEmail_preserves_store`). -/
theorem C10_email_normalized (w : World) (e : String) (o : ValidationOptions)
    (r : ValidationResult) (hwf : StoreWF w.store)
    (h : (validateEmail w e o).1 = .ok r) : r.email = jsNormalize e := by
  rcases hsh : runShallow w (jsNormalize e) (o.checkMx.getD true)
    (o.useDeBounce.getD true) (o.deep.getD false) with ⟨x, trs⟩
  match x, hsh with
  | .error u, hsh =>
    rw [validateEmail_eq_shallow_error hsh] at h
    simp only [Except.ok.injEq] at h
    subst h
    rfl
  | .ok (some r'), hsh =>
    rw [validateEmail_eq_shallow hsh] at h
    simp only [Except.ok.injEq] at h
    subst h
    exact (runShallow_some_shape hsh).1
  | .ok none, hsh =>
    rcases hd : runDeep w (jsNormalize e) with ⟨res, st, trd⟩
    match res, hd with
    | .error .notConfigured, hd =>
      rw [validateEmail_eq_deep_notConfigured hsh hd] at h
      simp at h
    | .error .oracleError, hd =>
      rw [validateEmail_eq_deep_oracleError hsh hd] at h
      simp only [Except.ok.injEq] at h
      subst h
      rfl
    | .ok r', hd =>
      rw [validateEmail_eq_deep_ok hsh hd] at h
      simp only [Except.ok.injEq] at h
      subst h
      by_cases hc : w.cacheEnabled = true
      · rcases hg : getFromCache w.store w.now (jsNormalize e) with ⟨g, st1⟩
        match g, hg with
        | some v, hg =>
          rw [runDeep_hit hc hg] at hd
          simp only [Prod.mk.injEq, Except.ok.injEq] at hd
          obtain ⟨en, hen, henv, henk⟩ := (getFromCache_hit_store hg).2
          have hkey : cacheKeyPrefixStr ++ en.value.email =
              cacheKeyPrefixStr ++ jsNormalize e := by
            rw [← hwf en hen, henk, getCacheKey, jsNormalize_idem]
          have hemail : en.value.email = jsNormalize e := stringAppendCancelLeft hkey
          rw [← hd.1]
          show v.email = jsNormalize e
          rw [← henv]
          exact hemail
        | none, hg =>
          rw [runDeep_miss hc hg] at hd
          obtain ⟨resp, -, -, hr⟩ := runReacherStep_ok_shape hd
          rw [hr]
          exact (transformReacherResponse_shape _ resp).1
      · rw [runDeep_nocache (by simpa using hc)] at hd
        obtain ⟨resp, -, -, hr⟩ := runReacherStep_ok_shape hd
        rw [hr]
        exact (transformReacherResponse_shape _ resp).1

/-- C10 witness: a concrete mixed-case input with surrounding whitespace. -/
theorem C10_witness :
    (createResult "a@b.co" true none false true none none).email =
      jsNormalize "  A@B.Co " :=
  C10_email_normalized wBase "  A@B.Co " {} _
    (fun en hen => absurd hen (by simp [wBase])) rfl

/-- C9: on a cold (empty) cache with deterministic oracles, validating the
same address twice with identical options yields results equal in every field
except possibly `cached`. -/
theorem C9_idempotent_modulo_cached (w : World) (e : String) (o : ValidationOptions)
    (r1 r2 : ValidationResult)
    (hcold : w.store = [])
    (h1 : (validateEmail w e o).1 = .ok r1)
    (h2 : (validateEmail (validateEmail w e o).2.1 e o).1 = .ok r2) :
    { r1 with cached := false } = { r2 with cached := false } := by
  rcases hsh : runShallow w (jsNormalize e) (o.checkMx.getD true)
    (o.useDeBounce.getD true) (o.deep.getD false) with ⟨x, trs⟩
  match x, hsh with
  | .error u, hsh =>
    have hv := validateEmail_eq_shallow_error hsh
    rw [hv] at h1 h2
    dsimp only at h2
    rw [hv] at h2
    simp only [Except.ok.injEq] at h1 h2
    rw [← h1, ← h2]
  | .ok (some r'), hsh =>
    have hv := validateEmail_eq_shallow hsh
    rw [hv] at h1 h2
    dsimp only at h2
    rw [hv] at h2
    simp only [Except.ok.injEq] at h1 h2
    rw [← h1, ← h2]
  | .ok none, hsh =>
    by_cases hc : w.cacheEnabled = true
    · have hg : getFromCache w.store w.now (jsNormalize e) = (none, w.store) := by
        rw [hcold]
        rfl
      have hdm := runDeep_miss hc hg
      by_cases hconf : w.reacherConfigured = true
      · rcases horc : w.reacherOracle (jsNormalize e) with u' | resp
        · cases u'
          have hd : runDeep w (jsNormalize e) =
              (.error .oracleError, w.store,
                [.cacheGet (getCacheKey (jsNormalize e)), .reacherCall (jsNormalize e)]) := by
            rw [hdm, runReacherStep_oracleError hconf horc]
            rfl
          have hv := validateEmail_eq_deep_oracleError hsh hd
          rw [hv] at h1 h2
          dsimp only at h2
          have hsh2 : runShallow { w with store := w.store } (jsNormalize e)
              (o.checkMx.getD true) (o.useDeBounce.getD true) (o.deep.getD false) =
              (.ok none, trs) := by
            rw [runShallow_store_only]
            exact hsh
          have hd2 : runDeep { w with store := w.store } (jsNormalize e) =
              (.error .oracleError, w.store,
                [.cacheGet (getCacheKey (jsNormalize e)), .reacherCall (jsNormalize e)]) := by
            rw [runDeep_miss (w := { w with store := w.store }) hc hg,
              runReacherStep_oracleError (w := { w with store := w.store }) hconf horc]
            rfl
          rw [validateEmail_eq_deep_oracleError hsh2 hd2] at h2
          simp only [Except.ok.injEq] at h1 h2
          rw [← h1, ← h2]
        · by_cases hwr : (w.cacheEnabled && decide (0 < w.ttl resp.is_reachable)) = true
          · -- TTL positive: the first call writes, the second call hits.
            have httl : 0 < w.ttl resp.is_reachable := by
              have hx := hwr
              simp only [Bool.and_eq_true, decide_eq_true_eq] at hx
              exact hx.2
            have hd : runDeep w (jsNormalize e) =
                (.ok (transformReacherResponse (jsNormalize e) resp),
                  setInCache w.store w.now (jsNormalize e)
                    (transformReacherResponse (jsNormalize e) resp)
                    (w.ttl resp.is_reachable),
                  [.cacheGet (getCacheKey (jsNormalize e)), .reacherCall (jsNormalize e),
                    .cacheSet (getCacheKey (jsNormalize e))]) := by
              rw [hdm, runReacherStep_ok_write hconf horc hwr]
              rfl
            have hv := validateEmail_eq_deep_ok hsh hd
            rw [hv] at h1 h2
            dsimp only at h2
            have hset : setInCache w.store w.now (jsNormalize e)
                (transformReacherResponse (jsNormalize e) resp)
                (w.ttl resp.is_reachable) =
                memoryCacheSet w.store w.now (getCacheKey (jsNormalize e))
                  (transformReacherResponse (jsNormalize e) resp)
                  (w.ttl resp.is_reachable) := by
              unfold setInCache
              rw [if_neg (by omega)]
            have hsh2 : runShallow { w with store := (setInCache w.store w.now (jsNormalize e)
                  (transformReacherResponse (jsNormalize e) resp)
                  (w.ttl resp.is_reachable)) } (jsNormalize e)
                (o.checkMx.getD true) (o.useDeBounce.getD true) (o.deep.getD false) =
                (.ok none, trs) := by
              rw [runShallow_store_only]
              exact hsh
            have hg2 : getFromCache (setInCache w.store w.now (jsNormalize e)
                (transformReacherResponse (jsNormalize e) resp)
                (w.ttl resp.is_reachable)) w.now (jsNormalize e) =
                (some (transformReacherResponse (jsNormalize e) resp),
                  setInCache w.store w.now (jsNormalize e)
                    (transformReacherResponse (jsNormalize e) resp)
                    (w.ttl resp.is_reachable)) := by
              rw [hset]
              exact memoryCacheGet_after_set _ _ _ _ _ httl
            have hd2 := runDeep_hit
              (w := { w with store := (setInCache w.store w.now (jsNormalize e)
                (transformReacherResponse (jsNormalize e) resp)
                (w.ttl resp.is_reachable)) }) hc hg2
            rw [validateEmail_eq_deep_ok hsh2 hd2] at h2
            simp only [Except.ok.injEq] at h1 h2
            rw [← h1, ← h2]
          · -- TTL not positive: neither call writes; both return the transform.
            have hwrf : (w.cacheEnabled && decide (0 < w.ttl resp.is_reachable)) = false := by
              simpa using hwr
            have hd : runDeep w (jsNormalize e) =
                (.ok (transformReacherResponse (jsNormalize e) resp), w.store,
                  [.cacheGet (getCacheKey (jsNormalize e)), .reacherCall (jsNormalize e)]) := by
              rw [hdm, runReacherStep_ok_nowrite hconf horc hwrf]
              rfl
            have hv := validateEmail_eq_deep_ok hsh hd
            rw [hv] at h1 h2
            dsimp only at h2
            have hsh2 : runShallow { w with store := w.store } (jsNormalize e)
                (o.checkMx.getD true) (o.useDeBounce.getD true) (o.deep.getD false) =
                (.ok none, trs) := by
              rw [runShallow_store_only]
              exact hsh
            have hd2 : runDeep { w with store := w.store } (jsNormalize e) =
                (.ok (transformReacherResponse (jsNormalize e) resp), w.store,
                  [.cacheGet (getCacheKey (jsNormalize e)), .reacherCall (jsNormalize e)]) := by
              rw [runDeep_miss (w := { w with store := w.store }) hc hg,
                runReacherStep_ok_nowrite (w := { w with store := w.store }) hconf horc hwrf]
              rfl
            rw [validateEmail_eq_deep_ok hsh2 hd2] at h2
            simp only [Except.ok.injEq] at h1 h2
            rw [← h1, ← h2]
      · have hcf : w.reacherConfigured = false := by simpa using hconf
        have hd : runDeep w (jsNormalize e) =
            (.error .notConfigured, w.store,
              [.cacheGet (getCacheKey (jsNormalize e)), .reacherCall (jsNormalize e)]) := by
          rw [hdm, runReacherStep_notConfigured hcf]
          rfl
        rw [validateEmail_eq_deep_notConfigured hsh hd] at h1
        simp at h1
    · have hcf : w.cacheEnabled = false := by simpa using hc
      have hdm := runDeep_nocache (n := jsNormalize e) hcf
      by_cases hconf : w.reacherConfigured = true
      · rcases horc : w.reacherOracle (jsNormalize e) with u' | resp
        · cases u'
          have hd : runDeep w (jsNormalize e) =
              (.error .oracleError, w.store, [.reacherCall (jsNormalize e)]) := by
            rw [hdm, runReacherStep_oracleError hconf horc]
            rfl
          have hv := validateEmail_eq_deep_oracleError hsh hd
          rw [hv] at h1 h2
          dsimp only at h2
          have hsh2 : runShallow { w with store := w.store } (jsNormalize e)
              (o.checkMx.getD true) (o.useDeBounce.getD true) (o.deep.getD false) =
              (.ok none, trs) := by
            rw [runShallow_store_only]
            exact hsh
          have hd2 : runDeep { w with store := w.store } (jsNormalize e) =
              (.error .oracleError, w.store, [.reacherCall (jsNormalize e)]) := by
            rw [runDeep_nocache (w := { w with store := w.store })
                (n := jsNormalize e) hcf,
              runReacherStep_oracleError (w := { w with store := w.store }) hconf horc]
            rfl
          rw [validateEmail_eq_deep_oracleError hsh2 hd2] at h2
          simp only [Except.ok.injEq] at h1 h2
          rw [← h1, ← h2]
        · have hwrf : (w.cacheEnabled && decide (0 < w.ttl resp.is_reachable)) = false := by
            rw [hcf]
            simp
          have hd : runDeep w (jsNormalize e) =
              (.ok (transformReacherResponse (jsNormalize e) resp), w.store,
                [.reacherCall (jsNormalize e)]) := by
            rw [hdm, runReacherStep_ok_nowrite hconf horc hwrf]
            rfl
          have hv := validateEmail_eq_deep_ok hsh hd
          rw [hv] at h1 h2
          dsimp only at h2
          have hsh2 : runShallow { w with store := w.store } (jsNormalize e)
              (o.checkMx.getD true) (o.useDeBounce.getD true) (o.deep.getD false) =
              (.ok none, trs) := by
            rw [runShallow_store_only]
            exact hsh
          have hd2 : runDeep { w with store := w.store } (jsNormalize e) =
              (.ok (transformReacherResponse (jsNormalize e) resp), w.store,
                [.reacherCall (jsNormalize e)]) := by
            rw [runDeep_nocache (w := { w with store := w.store })
                (n := jsNormalize e) hcf,
              runReacherStep_ok_nowrite (w := { w with store := w.store }) hconf horc hwrf]
            rfl
          rw [validateEmail_eq_deep_ok hsh2 hd2] at h2
          simp only [Except.ok.injEq] at h1 h2
          rw [← h1, ← h2]
      · have hcf2 : w.reacherConfigured = false := by simpa using hconf
        have hd : runDeep w (jsNormalize e) =
            (.error .notConfigured, w.store, [.reacherCall (jsNormalize e)]) := by
          rw [hdm, runReacherStep_notConfigured hcf2]
          rfl
        rw [validateEmail_eq_deep_notConfigured hsh hd] at h1
        simp at h1

/-- C9 witness: two successive deep validations of the same address against
the `safe` deterministic oracle on a cold cache agree in every field but
`cached`. -/
theorem C9_witness :
    { transformReacherResponse "a@b.co" safeResponse with cached := false } =
      { { transformReacherResponse "a@b.co" safeResponse with cached := true }
        with cached := false } :=
  C9_idempotent_modulo_cached wSafe "a@b.co" deepOpts
    (transformReacherResponse "a@b.co" safeResponse)
    { transformReacherResponse "a@b.co" safeResponse with cached := true }
    rfl rfl rfl

/-! ## Helper lemmas: the batch executor -/

theorem runScheduled_ok_keys (emails : List String) (o : ValidationOptions) :
    ∀ (sched : List Nat) (w : World) (acc acc' : List (Nat × ValidationResult))
      (w' : World),
      runScheduled emails o sched w acc = .ok (acc', w') →
      acc'.map Prod.fst = acc.map Prod.fst ++ sched := by
  intro sched
  induction sched with
  | nil =>
    intro w acc acc' w' h
    unfold runScheduled at h
    simp only [Except.ok.injEq, Prod.mk.injEq] at h
    rw [← h.1]
    simp
  | cons i rest ih =>
    intro w acc acc' w' h
    unfold runScheduled at h
    split at h
    · simp at h
    · next r w1 tr heq =>
      have hk := ih w1 (acc ++ [(i, r)]) acc' w' h
      rw [hk]
      simp

theorem runScheduled_ok_provenance (emails : List String) (o : ValidationOptions) :
    ∀ (sched : List Nat) (w : World) (acc acc' : List (Nat × ValidationResult))
      (w' : World),
      (∀ p ∈ acc, ∃ w1, (validateEmail w1 (emails.getD p.1 "") o).1 = .ok p.2) →
      runScheduled emails o sched w acc = .ok (acc', w') →
      ∀ p ∈ acc', ∃ w1, (validateEmail w1 (emails.getD p.1 "") o).1 = .ok p.2 := by
  intro sched
  induction sched with
  | nil =>
    intro w acc acc' w' hacc h
    unfold runScheduled at h
    simp only [Except.ok.injEq, Prod.mk.injEq] at h
    rw [← h.1]
    exact hacc
  | cons i rest ih =>
    intro w acc acc' w' hacc h
    unfold runScheduled at h
    split at h
    · simp at h
    · next r w1 tr heq =>
      refine ih w1 (acc ++ [(i, r)]) acc' w' ?_ h
      intro p hp
      rcases List.mem_append.mp hp with hp | hp
      · exact hacc p hp
      · simp only [List.mem_singleton] at hp
        subst hp
        exact ⟨w, by rw [heq]⟩

theorem lookup_mem {l : List (Nat × ValidationResult)} {i : Nat} {r : ValidationResult}
    (h : l.lookup i = some r) : (i, r) ∈ l := by
  induction l with
  | nil => simp [List.lookup] at h
  | cons p ps ih =>
    rcases p with ⟨k, v⟩
    simp only [List.lookup] at h
    split at h
    · next he =>
      simp only [Option.some.injEq] at h
      subst h
      have hik : i = k := by simpa using he
      subst hik
      exact List.mem_cons_self _ _
    · exact List.mem_cons_of_mem _ (ih h)

theorem keys_lookup {l : List (Nat × ValidationResult)} {i : Nat}
    (h : i ∈ l.map Prod.fst) : ∃ r, l.lookup i = some r := by
  induction l with
  | nil => simp at h
  | cons p ps ih =>
    rcases p with ⟨k, v⟩
    by_cases he : i = k
    · subst he
      exact ⟨v, by simp [List.lookup]⟩
    · simp only [List.map_cons, List.mem_cons] at h
      rcases h with h | h
      · exact absurd h he
      · obtain ⟨r, hr⟩ := ih h
        refine ⟨r, ?_⟩
        simp only [List.lookup]
        rw [show (i == k) = false from by simpa using he]
        exact hr

/-- C8: whenever the batch executor returns a results list — for any
completion schedule of the worker pool, hence for every concurrency limit —
the list has one slot per input and slot `i` holds a genuine `validateEmail`
outcome for the address at position `i`, regardless of the order in which the
scheduled validations completed. -/
theorem C8_batch_order_stable (emails : List String) (o : ValidationOptions)
    (w : World) (schedule : List Nat) (rs : List (Option ValidationResult))
    (hperm : schedule.Perm (List.range emails.length))
    (hok : validateEmails emails o w schedule = .ok rs) :
    rs.length = emails.length ∧
    ∀ i, i < emails.length →
      ∃ w1 r, rs.getD i none = some r ∧
        (validateEmail w1 (emails.getD i "") o).1 = .ok r := by
  unfold validateEmails at hok
  split at hok
  · simp at hok
  · next acc w' heq =>
    simp only [Except.ok.injEq] at hok
    subst hok
    constructor
    · simp
    · intro i hi
      have hkeys := runScheduled_ok_keys emails o schedule w [] acc w' heq
      have hmem : i ∈ acc.map Prod.fst := by
        rw [hkeys]
        simp only [List.map_nil, List.nil_append]
        exact hperm.mem_iff.mpr (List.mem_range.mpr hi)
      obtain ⟨r, hr⟩ := keys_lookup hmem
      have hprov := runScheduled_ok_provenance emails o schedule w [] acc w'
        (by intro p hp; simp at hp) heq (i, r) (lookup_mem hr)
      refine ⟨hprov.choose, r, ?_, hprov.choose_spec⟩
      have hlen : i < ((List.range emails.length).map (fun j => acc.lookup j)).length := by
        simpa using hi
      rw [List.getD_eq_getElem _ _ hlen, List.getElem_map, List.getElem_range]
      exact hr

/-- C8 witness: two addresses completed in reverse schedule order still land
at their own input positions. -/
theorem C8_witness :
    ([some (createResult "x@y.co" true none false true none none),
      some (createResult "not-an-email" false (some .invalidSyntax)
        false false none none)] : List (Option ValidationResult)).length =
      ["x@y.co", "not-an-email"].length :=
  (C8_batch_order_stable ["x@y.co", "not-an-email"] {} wBase [1, 0] _
    (by decide) rfl).1
